import Mathlib

/-!
Verification of the xuckoo hash table (`src/tables/xuckoo.c`): a dynamic hash
table combining extendible hashing with cuckoo hashing, one key per bucket,
two inner tables with two hash functions.

Shallow embedding notes:
* Buckets are heap objects shared by several directory slots; we model each
  inner table's heap as an arena (`List Bucket`) and slots as arena indices,
  so mutation through one slot is visible through every aliasing slot,
  exactly as with C pointers.
* The hash functions `h1`, `h2` and the constant `MAX_TABLE_SIZE` come from a
  header that is not part of the repository; they are parameters
  (`XuckooParams`).  `h1`/`h2` are arbitrary deterministic functions.
* `new_bucket` in C leaves the `key` field uninitialized; the model uses `0`.
  (An empty bucket's `key` field is never supposed to be read; theorems that
  depend on a stale `key` value only use buckets whose field was previously
  written by the program itself.)
* The C macro `rightmostnbits(n, x) = x & ((1 << n) - 1)` is `x % 2 ^ n` on
  naturals.
* Machine-integer overflow is irrelevant at the sizes involved (sizes are
  `int`, doubling is guarded by `MAX_TABLE_SIZE`), so addresses and sizes are
  `Nat` and keys (`int64`) are `Int`.
* The mutually recursive pair `xuckoo_hash_table_insert` / `try_xuck_insert`
  is modelled with explicit fuel; `XRes.nofuel` means the fuel ran out and
  `XRes.fatal` models a failed `assert` (the `MAX_TABLE_SIZE` ceiling).
* The `stats.time` field (CPU timing) is process-level instrumentation with
  no algorithmic content and is omitted.
-/

/-- `bucket` from xuckoo.c: a unique id (the first table address pointing to
it), the number of hash bits used (`depth`), whether it stores a key, and the
stored key. -/
structure Bucket where
  id : Nat
  depth : Nat
  full : Bool
  key : Int
deriving Repr, DecidableEq

instance : Inhabited Bucket := ⟨{ id := 0, depth := 0, full := false, key := 0 }⟩

/-- `inner_table` from xuckoo.c.  `arena` is the heap of bucket objects owned
by this table; `slots` holds arena indices (the C `Bucket **buckets` array of
pointers).  `size = 2 ^ depth` entries. -/
structure InnerTable where
  arena : List Bucket
  slots : List Nat
  size : Nat
  depth : Nat
  nkeys : Nat
deriving Repr, DecidableEq

/-- `stats` from xuckoo.c without the CPU-time field. -/
structure Stats where
  nbuckets : Nat
  nkeys : Nat
deriving Repr, DecidableEq

/-- `xuckoo_table` from xuckoo.c: two inner tables plus statistics. -/
structure XuckooHashTable where
  table1 : InnerTable
  table2 : InnerTable
  stats : Stats
deriving Repr, DecidableEq

/-- The external collaborators of xuckoo.c that live in the missing header:
the two hash functions and the `MAX_TABLE_SIZE` resource ceiling. -/
structure XuckooParams where
  h1 : Int → Nat
  h2 : Int → Nat
  maxSize : Nat

/-- Macro `rightmostnbits(n, x) = (x) & ((1 << (n)) - 1)`: the low-order `n`
bits of `x`, i.e. `x % 2 ^ n`. -/
def rightmostnbits (n x : Nat) : Nat := x % 2 ^ n

/-- `new_bucket`: C sets `id`, `depth`, `full = false` and leaves `key`
uninitialized (modelled as `0`). -/
def new_bucket (first_address depth : Nat) : Bucket :=
  { id := first_address, depth := depth, full := false, key := 0 }

/-- `new_inner_table`: size 1, depth 0, one empty bucket with id 0. -/
def new_inner_table : InnerTable :=
  { arena := [new_bucket 0 0], slots := [0], size := 1, depth := 0, nkeys := 0 }

/-- The arena index stored in slot `address` (C: the pointer
`table->buckets[address]`). -/
def InnerTable.bucketIdxAt (t : InnerTable) (address : Nat) : Nat :=
  t.slots.getD address 0

/-- The bucket object referenced by slot `address`
(C: `*table->buckets[address]`). -/
def InnerTable.bucketAt (t : InnerTable) (address : Nat) : Bucket :=
  t.arena.getD (t.bucketIdxAt address) default

/-- In-place mutation of the bucket object at arena index `bidx`
(C: writing through a `Bucket *`). -/
def InnerTable.modifyBucket (t : InnerTable) (bidx : Nat) (f : Bucket → Bucket) :
    InnerTable :=
  { t with arena := t.arena.set bidx (f (t.arena.getD bidx default)) }

/-- `double_table`: doubles the slot array (copying every pointer down, so
slot `size + i` aliases slot `i`), doubles `size`, increments `depth`.  The C
`assert(size < MAX_TABLE_SIZE)` is the fatal resource ceiling, modelled as
`none`. -/
def double_table (maxSize : Nat) (t : InnerTable) : Option InnerTable :=
  let size := t.size * 2
  if size < maxSize then
    some { t with slots := t.slots ++ t.slots, size := size, depth := t.depth + 1 }
  else none

/-- `reinsert_key`: recompute the key's address at the current depth with the
table's own hash function and store it there unconditionally. -/
def reinsert_key (P : XuckooParams) (t : InnerTable) (key : Int) (table_no : Nat) :
    InnerTable :=
  let address :=
    if table_no = 1 then rightmostnbits t.depth (P.h1 key)
    else rightmostnbits t.depth (P.h2 key)
  t.modifyBucket (t.bucketIdxAt address)
    (fun b => { b with key := key, full := true })

/-- The redirect loop of `split_bucket`: for each `pfx < maxpfx` set slot
`(pfx << new_depth) | suffix` to the new bucket. -/
def redirect_slots (slots : List Nat) (suffix new_depth nbidx : Nat) :
    Nat → List Nat
  | 0 => slots
  | p + 1 =>
      (redirect_slots slots suffix new_depth nbidx p).set
        ((p <<< new_depth) ||| suffix) nbidx

/-- Steps SECOND to FINALLY of `split_bucket`, on the (possibly already
doubled) inner table `inner1`: bump the target bucket's depth, create the
sibling bucket (id = old id with a 1 bit added at the old depth), redirect
every slot whose address is `pfx · 1 · bit_address` to the sibling, then
remove the old bucket's key and reinsert it at its current-depth address. -/
def split_inner (P : XuckooParams) (inner1 : InnerTable) (address : Nat)
    (table_no : Nat) : InnerTable :=
  let bidx := inner1.bucketIdxAt address
  let bucket := inner1.arena.getD bidx default
  let depth := bucket.depth
  let first_address := bucket.id
  let new_depth := depth + 1
  let inner2 := inner1.modifyBucket bidx (fun b => { b with depth := new_depth })
  let new_first_address := (1 <<< depth) ||| first_address
  let nbidx := inner2.arena.length
  let inner3 :=
    { inner2 with arena := inner2.arena ++ [new_bucket new_first_address new_depth] }
  let bit_address := rightmostnbits depth first_address
  let suffix := (1 <<< depth) ||| bit_address
  let maxpfx := 2 ^ (inner3.depth - new_depth)
  let inner4 :=
    { inner3 with slots := redirect_slots inner3.slots suffix new_depth nbidx maxpfx }
  let oldkey := bucket.key
  let inner5 := inner4.modifyBucket bidx (fun b => { b with full := false })
  reinsert_key P inner5 oldkey table_no

/-- Write the split inner table back into the coordinator and increment the
coordinator's bucket counter. -/
def split_install (t : XuckooHashTable) (inner6 : InnerTable)
    (table_no : Nat) : XuckooHashTable :=
  let t' :=
    if table_no = 1 then { t with table1 := inner6 } else { t with table2 := inner6 }
  { t' with stats := { t'.stats with nbuckets := t'.stats.nbuckets + 1 } }

/-- `split_bucket`: grow the inner table if the target bucket is down to its
last pointer, bump the bucket's depth, create a sibling bucket, redirect every
second aliasing slot to the sibling, then remove and reinsert the old bucket's
key; finally increment the coordinator's bucket counter.  `none` models the
fatal `MAX_TABLE_SIZE` assert inside `double_table`. -/
def split_bucket (P : XuckooParams) (t : XuckooHashTable) (address : Nat)
    (table_no : Nat) : Option XuckooHashTable :=
  let inner0 := if table_no = 1 then t.table1 else t.table2
  let grown :=
    if (inner0.bucketAt address).depth = inner0.depth then
      double_table P.maxSize inner0
    else some inner0
  match grown with
  | none => none
  | some inner1 => some (split_install t (split_inner P inner1 address table_no) table_no)

/-- `new_xuckoo_hash_table`: two fresh inner tables, zeroed statistics. -/
def new_xuckoo_hash_table : XuckooHashTable :=
  { table1 := new_inner_table, table2 := new_inner_table,
    stats := { nbuckets := 0, nkeys := 0 } }

/-- `xuckoo_hash_table_lookup`: compute each table's address for the key with
its own hash function and depth; found iff table 1's bucket is full and holds
the key, or (checked only if not yet found) table 2's bucket is full and holds
the key.  Pure: no mutation. -/
def xuckoo_hash_table_lookup (P : XuckooParams) (t : XuckooHashTable)
    (key : Int) : Bool :=
  let address := rightmostnbits t.table1.depth (P.h1 key)
  let address2 := rightmostnbits t.table2.depth (P.h2 key)
  let b1 := t.table1.bucketAt address
  let b2 := t.table2.bucketAt address2
  let found := if b1.full then b1.key == key else false
  let found' := if b2.full && !found then b2.key == key else found
  found'

/-- Result of the fueled insert: `done b t` is a normal return (`b` the C
return value, `t` the table afterwards), `fatal` a failed assert
(`MAX_TABLE_SIZE` exceeded), `nofuel` means the fuel ran out. -/
inductive XRes where
  | done : Bool → XuckooHashTable → XRes
  | fatal : XRes
  | nofuel : XRes
deriving Repr, DecidableEq

/-- The active-table selector of `try_xuck_insert`: even loop counts use
table 2, odd counts use table 1 (the counter has already been incremented
when the selection happens). -/
def xuck_active_table_no (loopCount : Nat) : Nat :=
  if loopCount % 2 = 0 then 2 else 1

/-- The starting-table choice of `xuckoo_hash_table_insert`: table 1 when
`table1->nkeys <= table2->nkeys`, table 2 otherwise. -/
def xuck_start_table_no (t : XuckooHashTable) : Nat :=
  if t.table1.nkeys ≤ t.table2.nkeys then 1 else 2

/-- The table number a displacement step with incoming loop parameter `loop`
acts on (the step first increments the counter, then selects by parity). -/
def xuck_step_table_no (loop : Nat) : Nat :=
  xuck_active_table_no (loop + 1)

/-- The inner table a displacement step with incoming loop parameter `loop`
acts on. -/
def xuck_step_inner (t : XuckooHashTable) (loop : Nat) : InnerTable :=
  if xuck_step_table_no loop = 2 then t.table2 else t.table1

/-- The address a displacement step computes for `key` in its active table
(the active table's own hash function, masked to its depth). -/
def xuck_step_address (P : XuckooParams) (t : XuckooHashTable) (key : Int)
    (loop : Nat) : Nat :=
  rightmostnbits (xuck_step_inner t loop).depth
    (if xuck_step_table_no loop = 2 then P.h2 key else P.h1 key)

/-- The cycle/overflow guard of `try_xuck_insert`: (a) the computed address
equals the origin address, the current key equals the origin key, and the
incremented loop count exceeds 3; or (b) the incremented loop count exceeds
the combined slot counts of both tables. -/
def xuck_guard (P : XuckooParams) (t : XuckooHashTable) (key : Int)
    (orig_pos : Nat) (orig_key : Int) (loop : Nat) : Prop :=
  (xuck_step_address P t key loop = orig_pos ∧ key = orig_key ∧ loop + 1 > 3) ∨
    loop + 1 > t.table1.size + t.table2.size

instance (P : XuckooParams) (t : XuckooHashTable) (key : Int) (orig_pos : Nat)
    (orig_key : Int) (loop : Nat) :
    Decidable (xuck_guard P t key orig_pos orig_key loop) := by
  unfold xuck_guard; infer_instance

/-- Pending call of the mutually recursive pair
`xuckoo_hash_table_insert` / `try_xuck_insert`: either a top-level insert of a
key, or one displacement step carrying
`(key, orig_pos, orig_key, loop, orig_table)`. -/
inductive XCall where
  | ins : XuckooHashTable → Int → XCall
  | step : XuckooHashTable → Int → Nat → Int → Nat → Nat → XCall

/-- The mutually recursive pair `xuckoo_hash_table_insert` /
`try_xuck_insert` as a single function, structurally recursive on the fuel
(one unit of fuel per C-level call).

`.ins t key` (= `xuckoo_hash_table_insert`): return `false` (no mutation) if
the key is already present; otherwise start the displacement chain in the
table with fewer keys (ties favour table 1; the chain's initial loop
parameter is 0 when starting in table 1 and 1 when starting in table 2) and
return `true`.

`.step t key orig_pos orig_key loop orig_table` (= `try_xuck_insert`): one
displacement step.  Increment the loop counter and select the active table by
its parity; compute the key's address there; if the cycle/overflow guard
fires, split the bucket at that address and restart the whole insert with the
*current* key; otherwise swap with an occupied bucket and recurse, or place
the key in an empty bucket and bump both key counters. -/
def xuck_run (P : XuckooParams) : Nat → XCall → XRes
  | 0, _ => .nofuel
  | fuel + 1, .ins t key =>
    if xuckoo_hash_table_lookup P t key then .done false t
    else if xuck_start_table_no t = 1 then
      let address := rightmostnbits t.table1.depth (P.h1 key)
      match xuck_run P fuel (.step t key address key 0 1) with
      | .done _ t' => .done true t'
      | .fatal => .fatal
      | .nofuel => .nofuel
    else
      let address := rightmostnbits t.table2.depth (P.h2 key)
      match xuck_run P fuel (.step t key address key 1 2) with
      | .done _ t' => .done true t'
      | .fatal => .fatal
      | .nofuel => .nofuel
  | fuel + 1, .step t key orig_pos orig_key loop orig_table =>
    let table_no := xuck_step_table_no loop
    let inner := xuck_step_inner t loop
    let address := xuck_step_address P t key loop
    if xuck_guard P t key orig_pos orig_key loop then
      match split_bucket P t address table_no with
      | none => .fatal
      | some t' => xuck_run P fuel (.ins t' key)
    else if (inner.bucketAt address).full then
      let rehash_key := (inner.bucketAt address).key
      let inner' := inner.modifyBucket (inner.bucketIdxAt address)
        (fun b => { b with key := key })
      let t' :=
        if table_no = 2 then { t with table2 := inner' }
        else { t with table1 := inner' }
      xuck_run P fuel (.step t' rehash_key orig_pos orig_key (loop + 1) orig_table)
    else
      let inner' := inner.modifyBucket (inner.bucketIdxAt address)
        (fun b => { b with key := key, full := true })
      let inner'' := { inner' with nkeys := inner'.nkeys + 1 }
      let t' :=
        if table_no = 2 then { t with table2 := inner'' }
        else { t with table1 := inner'' }
      .done true { t' with stats := { t'.stats with nkeys := t'.stats.nkeys + 1 } }

/-- `xuckoo_hash_table_insert` (fueled): see `xuck_run`. -/
def xuckoo_hash_table_insert (P : XuckooParams) (fuel : Nat)
    (t : XuckooHashTable) (key : Int) : XRes :=
  xuck_run P fuel (.ins t key)

/-- `try_xuck_insert` (fueled): see `xuck_run`. -/
def try_xuck_insert (P : XuckooParams) (fuel : Nat) (t : XuckooHashTable)
    (key : Int) (orig_pos : Nat) (orig_key : Int) (loop : Nat)
    (orig_table : Nat) : XRes :=
  xuck_run P fuel (.step t key orig_pos orig_key loop orig_table)

/-- The teardown scan of `free_xuckoo_hash_table` for one inner table: walk
the slot indices from highest to lowest and free (collect) the referenced
bucket exactly when its `id` equals the slot's own index.  The list holds the
freed arena indices in scan order. -/
def free_scan (t : InnerTable) : List Nat :=
  ((List.range t.size).reverse.filter (fun i => (t.bucketAt i).id = i)).map
    (fun i => t.bucketIdxAt i)

/-- States reachable from a fresh table by the public operations (`lookup` is
pure, so only completed inserts change the state). -/
inductive Reachable (P : XuckooParams) : XuckooHashTable → Prop where
  | init : Reachable P new_xuckoo_hash_table
  | insert {t t' : XuckooHashTable} {fuel : Nat} {key : Int} {b : Bool} :
      Reachable P t → xuckoo_hash_table_insert P fuel t key = .done b t' →
      Reachable P t'

/-- The table state a pending call operates on. -/
def XCall.state : XCall → XuckooHashTable
  | .ins t _ => t
  | .step t _ _ _ _ _ => t

/-- Driver that performs a sequence of inserts through the public API,
collecting the returned booleans; `none` if any insert runs out of fuel or
hits the fatal resource ceiling. -/
def insert_list (P : XuckooParams) (fuel : Nat) :
    XuckooHashTable → List Int → Option (XuckooHashTable × List Bool)
  | t, [] => some (t, [])
  | t, k :: ks =>
    match xuckoo_hash_table_insert P fuel t k with
    | .done b t' =>
      match insert_list P fuel t' ks with
      | some (tf, bs) => some (tf, b :: bs)
      | none => none
    | .fatal => none
    | .nofuel => none

/-- Number of slots of `t` referencing the bucket object at arena index
`bidx`. -/
def ref_count (t : InnerTable) (bidx : Nat) : Nat :=
  (List.range t.size).countP (fun i => t.bucketIdxAt i == bidx)

/-- Structural well-formedness of one inner table (`maxSize` is the
`MAX_TABLE_SIZE` ceiling): the slot array has `size = 2 ^ depth` entries, a
grown table is strictly below the ceiling, every slot references an arena
bucket, every referenced bucket has local depth at most the table depth and
id equal to the low-order `depth` bits of any slot referencing it, two slots
alias the same bucket exactly when their indices agree on that bucket's
low-order `depth` bits, and every arena bucket is referenced. -/
structure InnerTable.WF (maxSize : Nat) (t : InnerTable) : Prop where
  slots_len : t.slots.length = t.size
  size_eq : t.size = 2 ^ t.depth
  size_lt : t.depth = 0 ∨ t.size < maxSize
  idx_lt : ∀ i, i < t.size → t.bucketIdxAt i < t.arena.length
  depth_le : ∀ i, i < t.size → (t.bucketAt i).depth ≤ t.depth
  id_eq : ∀ i, i < t.size → (t.bucketAt i).id = i % 2 ^ (t.bucketAt i).depth
  alias_iff : ∀ i j, i < t.size → j < t.size →
      (t.bucketIdxAt i = t.bucketIdxAt j ↔
        i % 2 ^ (t.bucketAt i).depth = j % 2 ^ (t.bucketAt i).depth)
  surj : ∀ b, b < t.arena.length → ∃ i, i < t.size ∧ t.bucketIdxAt i = b

/-- Structural well-formedness of the whole xuckoo table. -/
def XuckooHashTable.WF (P : XuckooParams) (t : XuckooHashTable) : Prop :=
  t.table1.WF P.maxSize ∧ t.table2.WF P.maxSize

/-- The all-zero hash function (used in concrete counterexample traces). -/
def hash_zero : Int → Nat := fun _ => 0

/-- Concrete second hash function for the counterexample traces:
`1 ↦ 1, 2 ↦ 2, 3 ↦ 1, 4 ↦ 2`, all other keys to `0`. -/
def hash_cex : Int → Nat := fun k =>
  if k = 1 then 1 else if k = 2 then 2 else if k = 3 then 1 else
  if k = 4 then 2 else 0

/-- Concrete parameters for the counterexample traces: `h1` constantly `0`,
`h2 = hash_cex`, generous resource ceiling. -/
def Pcex : XuckooParams := { h1 := hash_zero, h2 := hash_cex, maxSize := 100000 }

/-- Concrete first hash function for the C1 counterexample:
`3 ↦ 1`, all other keys to `0`. -/
def hash_cex1 : Int → Nat := fun k => if k = 3 then 1 else 0

/-- Concrete parameters for the C1 counterexample: `h1 = hash_cex1`, `h2`
constantly `0`. -/
def Pcex1 : XuckooParams := { h1 := hash_cex1, h2 := hash_zero, maxSize := 100000 }

/-- The state after inserting key 1 into a fresh table under `Pcex`. -/
def Tw1 : XuckooHashTable :=
  { table1 :=
      { arena := [{ id := 0, depth := 0, full := true, key := 1 }],
        slots := [0], size := 1, depth := 0, nkeys := 1 },
    table2 := new_inner_table,
    stats := { nbuckets := 0, nkeys := 1 } }

/-- The state produced by inserting keys 1, 2, 3 (all returning `true`) into
a fresh table under `Pcex`, taken verbatim from evaluating the model.  Key 1
has already been destroyed at this point (table 2's bucket 1 holds a
resurrected stale copy of key 3 where key 1 used to live). -/
def T3cex : XuckooHashTable :=
  { table1 :=
      { arena := [{ id := 0, depth := 1, full := true, key := 3 },
                  { id := 1, depth := 1, full := false, key := 0 }],
        slots := [0, 1], size := 2, depth := 1, nkeys := 1 },
    table2 :=
      { arena := [{ id := 0, depth := 2, full := false, key := 3 },
                  { id := 1, depth := 1, full := true, key := 3 },
                  { id := 2, depth := 2, full := true, key := 2 }],
        slots := [0, 1, 2, 1], size := 4, depth := 2, nkeys := 2 },
    stats := { nbuckets := 3, nkeys := 3 } }

/-- The state after additionally inserting key 4 into `T3cex` under `Pcex`
(the insert returns `true` but no key counter changes: the displacement chain
splits, restarts with a key that a stale duplicate makes look present, and
the restart returns `false`). -/
def T4cex : XuckooHashTable :=
  { table1 :=
      { arena := [{ id := 0, depth := 2, full := true, key := 2 },
                  { id := 1, depth := 1, full := false, key := 0 },
                  { id := 2, depth := 2, full := false, key := 0 }],
        slots := [0, 1, 2, 1], size := 4, depth := 2, nkeys := 1 },
    table2 :=
      { arena := [{ id := 0, depth := 2, full := false, key := 3 },
                  { id := 1, depth := 1, full := true, key := 3 },
                  { id := 2, depth := 2, full := true, key := 4 }],
        slots := [0, 1, 2, 1], size := 4, depth := 2, nkeys := 2 },
    stats := { nbuckets := 4, nkeys := 3 } }

/-- The mid-chain state of the C1 counterexample: inserting key 3 into a
fresh table that already holds keys 1 and 2 (one per table, all hash
addresses 0) swaps 3 into table 1 (displacing 1) and 1 into table 2
(displacing 2); the displacement step then continues with current key 2,
origin key 3, origin address 0 and loop count 2. -/
def Tmid : XuckooHashTable :=
  { table1 :=
      { arena := [{ id := 0, depth := 0, full := true, key := 3 }],
        slots := [0], size := 1, depth := 0, nkeys := 1 },
    table2 :=
      { arena := [{ id := 0, depth := 0, full := true, key := 1 }],
        slots := [0], size := 1, depth := 0, nkeys := 1 },
    stats := { nbuckets := 0, nkeys := 2 } }

/-! ## Theorems -/

set_option maxRecDepth 4000

/-- **C5** (confirmed).  `lookup` returns `true` iff the bucket at the
low-order `global_depth` bits of `h1 key` in table 1 is occupied and stores
the key, or the bucket at the low-order `global_depth` bits of `h2 key` in
table 2 is occupied and stores the key.  (`lookup` is a pure function of the
state — it performs no mutation by construction.) -/
theorem c5_lookup_iff (P : XuckooParams) (t : XuckooHashTable) (key : Int) :
    xuckoo_hash_table_lookup P t key = true ↔
      ((t.table1.bucketAt (rightmostnbits t.table1.depth (P.h1 key))).full = true ∧
        (t.table1.bucketAt (rightmostnbits t.table1.depth (P.h1 key))).key = key) ∨
      ((t.table2.bucketAt (rightmostnbits t.table2.depth (P.h2 key))).full = true ∧
        (t.table2.bucketAt (rightmostnbits t.table2.depth (P.h2 key))).key = key) := by
  simp only [xuckoo_hash_table_lookup]
  by_cases h1 : (t.table1.bucketAt (rightmostnbits t.table1.depth (P.h1 key))).full <;>
    by_cases h2 : (t.table2.bucketAt (rightmostnbits t.table2.depth (P.h2 key))).full <;>
      by_cases k1 : (t.table1.bucketAt (rightmostnbits t.table1.depth (P.h1 key))).key = key <;>
        simp [h1, h2, k1, beq_iff_eq]

/-- **C6** (confirmed).  `double_table` doubles the slot-array length and
increments the depth, duplicating every old slot `i` to `i + old_size` while
leaving old slots unchanged, and it fails (fatally, via `assert`) exactly
when the resulting size `2 * size` would exceed the largest admissible size
`MAX_TABLE_SIZE - 1`, i.e. exactly when `¬ (2 * size < MAX_TABLE_SIZE)`. -/
theorem c6_double_table (maxSize : Nat) (t : InnerTable)
    (hlen : t.slots.length = t.size) :
    (double_table maxSize t = none ↔ ¬ t.size * 2 < maxSize) ∧
    (∀ t', double_table maxSize t = some t' →
      t'.size = t.size * 2 ∧ t'.depth = t.depth + 1 ∧ t'.arena = t.arena ∧
      t'.nkeys = t.nkeys ∧ t'.slots.length = 2 * t.size ∧
      (∀ i, i < t.size → t'.slots.getD i 0 = t.slots.getD i 0) ∧
      (∀ i, i < t.size → t'.slots.getD (i + t.size) 0 = t.slots.getD i 0)) := by
  by_cases h : t.size * 2 < maxSize
  · refine ⟨by simp [double_table, h], ?_⟩
    intro t' ht'
    simp only [double_table, if_pos h, Option.some.injEq] at ht'
    subst ht'
    refine ⟨rfl, rfl, rfl, rfl, by simp [List.length_append, hlen]; ring, ?_, ?_⟩
    · intro i hi
      exact List.getD_append _ _ _ _ (by omega)
    · intro i hi
      show (t.slots ++ t.slots).getD (i + t.size) 0 = t.slots.getD i 0
      rw [List.getD_append_right _ _ _ _ (by omega)]
      congr 1
      omega
  · refine ⟨by simp [double_table, h], ?_⟩
    intro t' ht'
    simp [double_table, if_neg h] at ht'

/-- Witness for C6 at a concrete input: the fresh inner table satisfies the
hypothesis and the failure characterisation. -/
theorem c6_double_table_witness :
    double_table 100000 new_inner_table = none ↔
      ¬ new_inner_table.size * 2 < 100000 :=
  (c6_double_table 100000 new_inner_table (by decide)).1

/-- **C4** (confirmed).  The starting table of an insert is table 1 exactly
when table 1 stores fewer keys than table 2 or the counts are equal (table 2
otherwise), and the displacement step with incoming loop parameter `loop`
acts on the table selected from the incremented counter `loop + 1` by parity:
even counts use table 2 (B), odd counts use table 1 (A).  The last conjunct
ties the selectors to the insert dispatch itself: the chain starts with loop
parameter 0 (first step in table 1) when table 1 is chosen, and with loop
parameter 1 (first step in table 2) otherwise. -/
theorem c4_start_and_alternation :
    (∀ t : XuckooHashTable, xuck_start_table_no t = 1 ↔
        (t.table1.nkeys < t.table2.nkeys ∨ t.table1.nkeys = t.table2.nkeys)) ∧
    (∀ t : XuckooHashTable, xuck_start_table_no t = 2 ↔
        t.table2.nkeys < t.table1.nkeys) ∧
    (∀ n : Nat, xuck_active_table_no n = 2 ↔ n % 2 = 0) ∧
    (∀ n : Nat, xuck_active_table_no n = 1 ↔ n % 2 = 1) ∧
    (∀ loop : Nat, xuck_step_table_no loop = xuck_active_table_no (loop + 1)) ∧
    (∀ (P : XuckooParams) (fuel : Nat) (t : XuckooHashTable) (key : Int),
      xuckoo_hash_table_insert P (fuel + 1) t key =
        if xuckoo_hash_table_lookup P t key then .done false t
        else if xuck_start_table_no t = 1 then
          match try_xuck_insert P fuel t key
              (rightmostnbits t.table1.depth (P.h1 key)) key 0 1 with
          | .done _ t' => .done true t'
          | .fatal => .fatal
          | .nofuel => .nofuel
        else
          match try_xuck_insert P fuel t key
              (rightmostnbits t.table2.depth (P.h2 key)) key 1 2 with
          | .done _ t' => .done true t'
          | .fatal => .fatal
          | .nofuel => .nofuel) := by
  refine ⟨?_, ?_, ?_, ?_, fun _ => rfl, fun P fuel t key => rfl⟩
  · intro t
    simp only [xuck_start_table_no]
    split <;> (rename_i h; simp; try omega)
  · intro t
    simp only [xuck_start_table_no]
    split <;> (rename_i h; simp; try omega)
  · intro n
    simp only [xuck_active_table_no]
    split <;> (rename_i h; simp [h])
  · intro n
    simp only [xuck_active_table_no]
    split <;> (rename_i h; simp [h]; try omega)

/-- **C1** (counterexample).  At the explicit mid-chain state `Tmid` (current
key 2, origin key 3, origin address 0, loop count 2, inside the insert of key
3 under `Pcex1`) the cycle/overflow guard holds, yet the displacement step is
*not* equivalent to splitting and restarting the top-level insert with the
origin key 3: the code restarts with the current key 2 (the run shown here
returns `done true` and stores key 2, while a restart with the origin key
would return `done false` and lose key 2). -/
theorem c1_counterexample :
    xuck_guard Pcex1 Tmid 2 0 3 2 ∧
    try_xuck_insert Pcex1 21 Tmid 2 0 3 2 1 ≠
      (match split_bucket Pcex1 Tmid (xuck_step_address Pcex1 Tmid 2 2)
          (xuck_step_table_no 2) with
        | none => XRes.fatal
        | some t' => xuckoo_hash_table_insert Pcex1 20 t' 3) :=
  ⟨by decide, by decide⟩

/-- **C1** (amended).  When the cycle/overflow guard fires, the displacement
step splits the bucket at the computed address in the active table and then
restarts the entire top-level insert with the *current* key of the step
(which coincides with the origin key whenever clause (a) of the guard was the
trigger). -/
theorem c1_amended (P : XuckooParams) (fuel : Nat) (t : XuckooHashTable)
    (key : Int) (orig_pos : Nat) (orig_key : Int) (loop orig_table : Nat)
    (h : xuck_guard P t key orig_pos orig_key loop) :
    try_xuck_insert P (fuel + 1) t key orig_pos orig_key loop orig_table =
      match split_bucket P t (xuck_step_address P t key loop)
          (xuck_step_table_no loop) with
      | none => XRes.fatal
      | some t' => xuckoo_hash_table_insert P fuel t' key := by
  simp only [try_xuck_insert, xuck_run, if_pos h, xuckoo_hash_table_insert]

/-- Witness for C1's amended theorem at the concrete mid-chain input. -/
theorem c1_amended_witness :
    try_xuck_insert Pcex1 21 Tmid 2 0 3 2 1 =
      match split_bucket Pcex1 Tmid (xuck_step_address Pcex1 Tmid 2 2)
          (xuck_step_table_no 2) with
      | none => XRes.fatal
      | some t' => xuckoo_hash_table_insert Pcex1 20 t' 2 :=
  c1_amended Pcex1 20 Tmid 2 0 3 2 1 (by decide)

/-- **C3** (code bug, evaluation at the failing input).  Under `Pcex`
(`h1 ≡ 0`, `h2 = 1 ↦ 1, 2 ↦ 2, 3 ↦ 1`) the three inserts of keys 1, 2, 3
into a fresh table all return `true`, yet the subsequent lookup of key 1
returns `false`: during the third insert a displacement chain's guard fires
at an *empty* bucket, the split "reinserts" that bucket's stale key 3 over
the live bucket holding key 1, and key 1 is destroyed. -/
theorem c3_key_loss :
    (insert_list Pcex 20 new_xuckoo_hash_table [1, 2, 3]).map
      (fun r => (r.2, xuckoo_hash_table_lookup Pcex r.1 1)) =
      some ([true, true, true], false) := by decide

/-- **C2** (counterexample).  `T3cex` is reached from a fresh table by three
inserts (all `true`); key 4 is not present, yet inserting it returns `true`
while the total key count stays at 3 — the claimed "increases by exactly 1"
fails.  (The displacement chain splits and restarts with a key that a stale
duplicate makes look already present, so the restart skips the increment.) -/
theorem c2_counterexample :
    insert_list Pcex 20 new_xuckoo_hash_table [1, 2, 3] =
      some (T3cex, [true, true, true]) ∧
    xuckoo_hash_table_lookup Pcex T3cex 4 = false ∧
    xuckoo_hash_table_insert Pcex 20 T3cex 4 = .done true T4cex ∧
    T4cex.stats.nkeys = T3cex.stats.nkeys :=
  ⟨by decide, by decide, by decide, by decide⟩

/-- **C8** (counterexample).  Four inserts of pairwise distinct keys
1, 2, 3, 4 into a fresh table under `Pcex` all return `true`, yet the sum of
the two inner tables' key counters afterwards is 3, not 4. -/
theorem c8_counterexample :
    (insert_list Pcex 20 new_xuckoo_hash_table [1, 2, 3, 4]).map
      (fun r => (r.2, r.1.table1.nkeys + r.1.table2.nkeys)) =
      some ([true, true, true, true], 3) := by decide

/-- `reinsert_key` never touches the per-table key counter. -/
theorem reinsert_key_nkeys (P : XuckooParams) (it : InnerTable) (k : Int)
    (n : Nat) : (reinsert_key P it k n).nkeys = it.nkeys := rfl

/-- Shape of a successful `double_table`. -/
theorem double_table_eq (maxSize : Nat) (t t' : InnerTable)
    (h : double_table maxSize t = some t') :
    t' = { t with slots := t.slots ++ t.slots, size := t.size * 2,
                  depth := t.depth + 1 } ∧
    t.size * 2 < maxSize := by
  simp only [double_table] at h
  split at h
  · rename_i hc
    simp only [Option.some.injEq] at h
    exact ⟨h.symm, hc⟩
  · simp at h

/-- `split_inner` never touches the per-table key counter. -/
theorem split_inner_nkeys (P : XuckooParams) (i : InnerTable) (a n : Nat) :
    (split_inner P i a n).nkeys = i.nkeys := rfl

/-- Inversion for a successful `split_bucket`: the inner table was grown when
needed, and the result installs the split inner table. -/
theorem split_bucket_some (P : XuckooParams) (t : XuckooHashTable)
    (address table_no : Nat) (t' : XuckooHashTable)
    (h : split_bucket P t address table_no = some t') :
    ∃ inner1 : InnerTable,
      (if ((if table_no = 1 then t.table1 else t.table2).bucketAt address).depth =
          (if table_no = 1 then t.table1 else t.table2).depth then
        double_table P.maxSize (if table_no = 1 then t.table1 else t.table2)
      else some (if table_no = 1 then t.table1 else t.table2)) = some inner1 ∧
      t' = split_install t (split_inner P inner1 address table_no) table_no := by
  simp only [split_bucket] at h
  split at h
  · exact absurd h (by simp)
  · rename_i inner1 hg
    simp only [Option.some.injEq] at h
    exact ⟨inner1, hg, h.symm⟩

/-- Counter bookkeeping of `split_install`. -/
theorem split_install_counters (t : XuckooHashTable) (i : InnerTable) (n : Nat) :
    (split_install t i n).stats.nkeys = t.stats.nkeys ∧
    (split_install t i n).stats.nbuckets = t.stats.nbuckets + 1 ∧
    (split_install t i n).table1.nkeys = (if n = 1 then i.nkeys else t.table1.nkeys) ∧
    (split_install t i n).table2.nkeys = (if n = 1 then t.table2.nkeys else i.nkeys) := by
  by_cases h : n = 1 <;> simp [split_install, h]

/-- A successful `split_bucket` increments the coordinator's bucket counter
and preserves the coordinator's key counter and both per-table key
counters. -/
theorem split_bucket_counters (P : XuckooParams) (t : XuckooHashTable)
    (address table_no : Nat) (t' : XuckooHashTable)
    (h : split_bucket P t address table_no = some t') :
    t'.stats.nkeys = t.stats.nkeys ∧
    t'.stats.nbuckets = t.stats.nbuckets + 1 ∧
    t'.table1.nkeys = t.table1.nkeys ∧
    t'.table2.nkeys = t.table2.nkeys := by
  obtain ⟨inner1, hg, ht'⟩ := split_bucket_some P t address table_no t' h
  have hnk : inner1.nkeys = (if table_no = 1 then t.table1 else t.table2).nkeys := by
    by_cases h1 : table_no = 1
    · simp only [h1, ite_true] at hg ⊢
      split at hg
      · rw [(double_table_eq _ _ _ hg).1]
      · simp only [Option.some.injEq] at hg
        rw [← hg]
    · simp only [h1, ite_false] at hg ⊢
      split at hg
      · rw [(double_table_eq _ _ _ hg).1]
      · simp only [Option.some.injEq] at hg
        rw [← hg]
  subst ht'
  obtain ⟨s1, s2, s3, s4⟩ :=
    split_install_counters t (split_inner P inner1 address table_no) table_no
  rw [s1, s2, s3, s4, split_inner_nkeys, hnk]
  by_cases h1 : table_no = 1 <;> simp [h1]

/-- Counter bookkeeping of one fueled computation: a completed call increases
the coordinator's key counter by at most 1, and the coordinator's key counter
moves in lockstep with the sum of the two per-table key counters. -/
theorem xuck_run_counters (P : XuckooParams) :
    ∀ (fuel : Nat) (c : XCall) (b : Bool) (t' : XuckooHashTable),
      xuck_run P fuel c = .done b t' →
      t'.stats.nkeys ≤ c.state.stats.nkeys + 1 ∧
      t'.table1.nkeys + t'.table2.nkeys + c.state.stats.nkeys =
        c.state.table1.nkeys + c.state.table2.nkeys + t'.stats.nkeys := by
  intro fuel
  induction fuel with
  | zero => intro c b t' h; simp [xuck_run] at h
  | succ n ih =>
    intro c b t' h
    cases c with
    | ins t key =>
      simp only [xuck_run] at h
      by_cases hl : xuckoo_hash_table_lookup P t key
      · rw [if_pos hl] at h
        injection h with hb ht
        subst ht
        exact ⟨Nat.le_succ _, rfl⟩
      · rw [if_neg hl] at h
        by_cases hs : xuck_start_table_no t = 1
        · rw [if_pos hs] at h
          cases hr : xuck_run P n
              (.step t key (rightmostnbits t.table1.depth (P.h1 key)) key 0 1) with
          | done b2 t2 =>
            rw [hr] at h
            injection h with hb ht
            subst ht
            obtain ⟨ihl, ihe⟩ := ih _ _ _ hr
            simp only [XCall.state] at ihl ihe ⊢
            exact ⟨ihl, ihe⟩
          | fatal => rw [hr] at h; exact absurd h (by simp)
          | nofuel => rw [hr] at h; exact absurd h (by simp)
        · rw [if_neg hs] at h
          cases hr : xuck_run P n
              (.step t key (rightmostnbits t.table2.depth (P.h2 key)) key 1 2) with
          | done b2 t2 =>
            rw [hr] at h
            injection h with hb ht
            subst ht
            obtain ⟨ihl, ihe⟩ := ih _ _ _ hr
            simp only [XCall.state] at ihl ihe ⊢
            exact ⟨ihl, ihe⟩
          | fatal => rw [hr] at h; exact absurd h (by simp)
          | nofuel => rw [hr] at h; exact absurd h (by simp)
    | step t key orig_pos orig_key loop orig_table =>
      simp only [xuck_run] at h
      by_cases hgd : xuck_guard P t key orig_pos orig_key loop
      · rw [if_pos hgd] at h
        cases hsp : split_bucket P t (xuck_step_address P t key loop)
            (xuck_step_table_no loop) with
        | none => rw [hsp] at h; exact absurd h (by simp)
        | some t2 =>
          rw [hsp] at h
          obtain ⟨e1, _, e3, e4⟩ := split_bucket_counters P t _ _ t2 hsp
          obtain ⟨ihl, ihe⟩ := ih _ _ _ h
          simp only [XCall.state] at ihl ihe ⊢
          omega
      · rw [if_neg hgd] at h
        by_cases hf : ((xuck_step_inner t loop).bucketAt
            (xuck_step_address P t key loop)).full
        · rw [if_pos hf] at h
          by_cases h2 : xuck_step_table_no loop = 2
          · rw [if_pos h2] at h
            obtain ⟨ihl, ihe⟩ := ih _ _ _ h
            simp only [XCall.state, InnerTable.modifyBucket, xuck_step_inner, h2,
              ite_true] at ihl ihe ⊢
            omega
          · rw [if_neg h2] at h
            obtain ⟨ihl, ihe⟩ := ih _ _ _ h
            simp only [XCall.state, InnerTable.modifyBucket, xuck_step_inner, h2,
              ite_false] at ihl ihe ⊢
            omega
        · rw [if_neg hf] at h
          by_cases h2 : xuck_step_table_no loop = 2
          · rw [if_pos h2] at h
            injection h with hb ht
            subst ht
            simp only [XCall.state, InnerTable.modifyBucket, xuck_step_inner, h2,
              ite_true]
            omega
          · rw [if_neg h2] at h
            injection h with hb ht
            subst ht
            simp only [XCall.state, InnerTable.modifyBucket, xuck_step_inner, h2,
              ite_false]
            omega

/-- **C2** (amended).  `insert` returns `false` exactly when the key was
already present, and then the entire table state is unchanged; when a first
insert of a key returns `true` the total key count increases by *at most* 1
(the original "exactly 1" fails, see the counterexample: a split-restart
whose displaced key a stale duplicate makes look present skips the
increment). -/
theorem c2_amended (P : XuckooParams) (fuel : Nat) (t : XuckooHashTable)
    (key : Int) (b : Bool) (t' : XuckooHashTable)
    (h : xuckoo_hash_table_insert P fuel t key = .done b t') :
    (b = false ↔ xuckoo_hash_table_lookup P t key = true) ∧
    (b = false → t' = t) ∧
    (b = true → t'.stats.nkeys ≤ t.stats.nkeys + 1) := by
  cases fuel with
  | zero => exact absurd h (by simp [xuckoo_hash_table_insert, xuck_run])
  | succ n =>
    simp only [xuckoo_hash_table_insert, xuck_run] at h
    by_cases hl : xuckoo_hash_table_lookup P t key
    · rw [if_pos hl] at h
      injection h with hb ht
      subst ht
      exact ⟨by simp [← hb, hl], fun _ => rfl, fun hbt => by rw [← hb] at hbt; cases hbt⟩
    · rw [if_neg hl] at h
      have hb : b = true ∧ t'.stats.nkeys ≤ t.stats.nkeys + 1 := by
        by_cases hs : xuck_start_table_no t = 1
        · rw [if_pos hs] at h
          cases hr : xuck_run P n
              (.step t key (rightmostnbits t.table1.depth (P.h1 key)) key 0 1) with
          | done b2 t2 =>
            rw [hr] at h
            injection h with hb ht
            subst ht
            exact ⟨hb.symm, (xuck_run_counters P n _ _ _ hr).1⟩
          | fatal => rw [hr] at h; exact absurd h (by simp)
          | nofuel => rw [hr] at h; exact absurd h (by simp)
        · rw [if_neg hs] at h
          cases hr : xuck_run P n
              (.step t key (rightmostnbits t.table2.depth (P.h2 key)) key 1 2) with
          | done b2 t2 =>
            rw [hr] at h
            injection h with hb ht
            subst ht
            exact ⟨hb.symm, (xuck_run_counters P n _ _ _ hr).1⟩
          | fatal => rw [hr] at h; exact absurd h (by simp)
          | nofuel => rw [hr] at h; exact absurd h (by simp)
      refine ⟨?_, ?_, fun _ => hb.2⟩
      · simp [hb.1, hl]
      · intro hbf; rw [hb.1] at hbf; cases hbf

/-- Witness for C2's amended theorem: inserting key 1 into a fresh table
under `Pcex` returns `true` with the key count growing by at most one. -/
theorem c2_amended_witness :
    ((true : Bool) = false ↔
      xuckoo_hash_table_lookup Pcex new_xuckoo_hash_table 1 = true) ∧
    ((true : Bool) = false → Tw1 = new_xuckoo_hash_table) ∧
    ((true : Bool) = true →
      Tw1.stats.nkeys ≤ new_xuckoo_hash_table.stats.nkeys + 1) :=
  c2_amended Pcex 20 new_xuckoo_hash_table 1 true Tw1 (by decide)

/-- Counter bookkeeping of a whole insert sequence: the per-table counters
move in lockstep with the coordinator's key counter, which grows by at most
one per insert. -/
theorem insert_list_counters (P : XuckooParams) (fuel : Nat) :
    ∀ (keys : List Int) (t0 t : XuckooHashTable) (bs : List Bool),
      insert_list P fuel t0 keys = some (t, bs) →
      t.table1.nkeys + t.table2.nkeys + t0.stats.nkeys =
        t0.table1.nkeys + t0.table2.nkeys + t.stats.nkeys ∧
      t.stats.nkeys ≤ t0.stats.nkeys + keys.length := by
  intro keys
  induction keys with
  | nil =>
    intro t0 t bs h
    simp only [insert_list, Option.some.injEq, Prod.mk.injEq] at h
    obtain ⟨rfl, -⟩ := h
    exact ⟨rfl, Nat.le_add_right _ _⟩
  | cons k ks ihk =>
    intro t0 t bs h
    simp only [insert_list] at h
    cases hr : xuckoo_hash_table_insert P fuel t0 k with
    | done b1 t1 =>
      simp only [hr] at h
      cases hrec : insert_list P fuel t1 ks with
      | some r =>
        obtain ⟨tf, bs'⟩ := r
        simp only [hrec, Option.some.injEq, Prod.mk.injEq] at h
        obtain ⟨rfl, -⟩ := h
        obtain ⟨e1, e2⟩ := ihk t1 tf bs' hrec
        obtain ⟨f1, f2⟩ := xuck_run_counters P fuel (.ins t0 k) b1 t1 hr
        simp only [XCall.state] at f1 f2
        constructor
        · omega
        · simp only [List.length_cons]
          omega
      | none => simp [hrec] at h
    | fatal => simp [hr] at h
    | nofuel => simp [hr] at h

/-- **C8** (amended).  Split-time reinsertion changes no per-table key
counter (first conjunct), a successful split changes neither per-table key
counter (second conjunct), a displacement-chain swap — the full-bucket,
non-guard branch of `try_xuck_insert` — recurses on a state with both
per-table key counters unchanged (third conjunct), and after a sequence of N
successful inserts from a fresh table the sum of the two inner tables' key
counters is *at most* N — the original "equals N" fails, see the
counterexample (a split-restart that skips its increment loses the
equality). -/
theorem c8_amended :
    (∀ (P : XuckooParams) (it : InnerTable) (k : Int) (n : Nat),
      (reinsert_key P it k n).nkeys = it.nkeys) ∧
    (∀ (P : XuckooParams) (t : XuckooHashTable) (a n : Nat)
      (t' : XuckooHashTable), split_bucket P t a n = some t' →
      t'.table1.nkeys = t.table1.nkeys ∧ t'.table2.nkeys = t.table2.nkeys) ∧
    (∀ (P : XuckooParams) (fuel : Nat) (t : XuckooHashTable) (key : Int)
      (orig_pos : Nat) (orig_key : Int) (loop orig_table : Nat),
      ¬ xuck_guard P t key orig_pos orig_key loop →
      ((xuck_step_inner t loop).bucketAt (xuck_step_address P t key loop)).full →
      ∃ (t' : XuckooHashTable) (key' : Int),
        t'.table1.nkeys = t.table1.nkeys ∧
        t'.table2.nkeys = t.table2.nkeys ∧
        xuck_run P (fuel + 1) (.step t key orig_pos orig_key loop orig_table) =
          xuck_run P fuel
            (.step t' key' orig_pos orig_key (loop + 1) orig_table)) ∧
    (∀ (P : XuckooParams) (fuel : Nat) (keys : List Int) (t : XuckooHashTable)
      (bs : List Bool),
      insert_list P fuel new_xuckoo_hash_table keys = some (t, bs) →
      (∀ x ∈ bs, x = true) →
      t.table1.nkeys + t.table2.nkeys ≤ keys.length) := by
  refine ⟨fun P it k n => rfl, ?_, ?_, ?_⟩
  · intro P t a n t' h
    obtain ⟨-, -, e3, e4⟩ := split_bucket_counters P t a n t' h
    exact ⟨e3, e4⟩
  · intro P fuel t key orig_pos orig_key loop orig_table hg hf
    by_cases h2 : xuck_step_table_no loop = 2
    · refine ⟨{ t with table2 := ((xuck_step_inner t loop).modifyBucket
          ((xuck_step_inner t loop).bucketIdxAt (xuck_step_address P t key loop))
          (fun b => { b with key := key })) },
        ((xuck_step_inner t loop).bucketAt (xuck_step_address P t key loop)).key,
        rfl, ?_, ?_⟩
      · show (xuck_step_inner t loop).nkeys = t.table2.nkeys
        simp only [xuck_step_inner, h2, ite_true]
      · simp only [xuck_run]
        rw [if_neg hg, if_pos hf, if_pos h2]
    · refine ⟨{ t with table1 := ((xuck_step_inner t loop).modifyBucket
          ((xuck_step_inner t loop).bucketIdxAt (xuck_step_address P t key loop))
          (fun b => { b with key := key })) },
        ((xuck_step_inner t loop).bucketAt (xuck_step_address P t key loop)).key,
        ?_, rfl, ?_⟩
      · show (xuck_step_inner t loop).nkeys = t.table1.nkeys
        simp only [xuck_step_inner, h2, ite_false]
      · simp only [xuck_run]
        rw [if_neg hg, if_pos hf, if_neg h2]
  · intro P fuel keys t bs h _
    obtain ⟨e1, e2⟩ := insert_list_counters P fuel keys new_xuckoo_hash_table t bs h
    simp only [new_xuckoo_hash_table, new_inner_table] at e1 e2
    omega

/-- Witness for C8's amended theorem at concrete runs: four inserts from a
fresh table under `Pcex` end in `T4cex`, which stores at most four keys (in
fact three, the inequality is strict here); and at `Tw1` (whose table-1
bucket is full) a displacement step with key 7 takes the swap branch and
recurses on a state with both per-table key counters unchanged. -/
theorem c8_amended_witness :
    (T4cex.table1.nkeys + T4cex.table2.nkeys ≤
      ([1, 2, 3, 4] : List Int).length) ∧
    (∃ (t' : XuckooHashTable) (key' : Int),
      t'.table1.nkeys = Tw1.table1.nkeys ∧
      t'.table2.nkeys = Tw1.table2.nkeys ∧
      xuck_run Pcex (5 + 1) (XCall.step Tw1 7 0 7 0 1) =
        xuck_run Pcex 5 (XCall.step t' key' 0 7 (0 + 1) 1)) :=
  ⟨c8_amended.2.2.2 Pcex 20 [1, 2, 3, 4] T4cex [true, true, true, true]
      (by decide) (by decide),
   c8_amended.2.2.1 Pcex 5 Tw1 7 0 7 0 1 (by decide) (by decide)⟩

/-- `getD` after `set`: the written value inside bounds, unchanged
otherwise. -/
theorem xgetD_set {α : Type} (l : List α) (i j : Nat) (x d : α) :
    (l.set i x).getD j d =
      if i = j ∧ j < l.length then x else l.getD j d := by
  by_cases hij : i = j
  · subst hij
    by_cases hi : i < l.length
    · simp [List.getD_eq_getElem _ _ (by simpa using hi), hi, List.getElem_set]
    · have hled : l.length ≤ i := Nat.le_of_not_lt hi
      simp [hi, List.getD_eq_getD_get?, List.get?_eq_getElem?,
        List.getElem?_set_self', List.getElem?_eq_none hled]
  · by_cases hj : j < l.length
    · simp [List.getD_eq_getElem _ _ (by simpa using hj), hij,
        List.getD_eq_getElem _ _ hj, List.getElem_set]
    · simp [List.getD_eq_default _ _ (by simpa using Nat.le_of_not_lt hj), hij,
        List.getD_eq_default _ _ (Nat.le_of_not_lt hj)]

/-- Shifted-or as addition when the low part fits below the shift. -/
theorem shiftLeft_lor_eq_add :
    ∀ (n a b : Nat), b < 2 ^ n → (a <<< n) ||| b = a * 2 ^ n + b := by
  intro n
  induction n with
  | zero =>
    intro a b hb
    have hb0 : b = 0 := by omega
    subst hb0
    simp [Nat.shiftLeft_eq]
  | succ n ih =>
    intro a b hb
    have hb2 : b / 2 < 2 ^ n := by
      have h2 : 2 ^ (n + 1) = 2 * 2 ^ n := by ring
      omega
    have h1 : a <<< (n + 1) = Nat.bit false (a <<< n) := by
      simp only [Nat.bit_val, Bool.toNat_false, Nat.add_zero, Nat.shiftLeft_eq]
      ring
    have h2 : Nat.bit (decide (b % 2 = 1)) (b >>> 1) = b :=
      Nat.bit_decide_mod_two_eq_one_shiftRight_one b
    rw [h1, ← h2, Nat.lor_bit]
    simp only [Bool.false_or, Nat.shiftRight_one]
    rw [ih a (b / 2) hb2]
    have hpow : (2 : Nat) ^ (n + 1) = 2 ^ n * 2 := by ring
    rw [Nat.bit_val, hpow, ← Nat.mul_assoc]
    rcases Nat.mod_two_eq_zero_or_one b with hm | hm <;> simp [hm] <;> omega

/-- Membership of a residue class inside `[0, 2^td)`, written with an
explicit quotient. -/
theorem mod_class_iff (td dd i s : Nat) (hdd : dd ≤ td) (hs : s < 2 ^ dd)
    (hi : i < 2 ^ td) :
    i % 2 ^ dd = s ↔ ∃ q, q < 2 ^ (td - dd) ∧ i = q * 2 ^ dd + s := by
  constructor
  · intro h
    refine ⟨i / 2 ^ dd, ?_, ?_⟩
    · have hlt : i < 2 ^ (td - dd) * 2 ^ dd := by
        rw [← Nat.pow_add]
        rw [Nat.sub_add_cancel hdd]
        exact hi
      exact Nat.div_lt_of_lt_mul (by rw [Nat.mul_comm]; exact hlt)
    · rw [← h, Nat.mul_comm (i / 2 ^ dd) (2 ^ dd)]
      exact (Nat.div_add_mod i (2 ^ dd)).symm
  · rintro ⟨q, -, rfl⟩
    rw [Nat.mul_comm, Nat.mul_add_mod]
    exact Nat.mod_eq_of_lt hs

/-- Counting a residue class in `List.range (m * n)`. -/
theorem countP_range_mod :
    ∀ (m n r : Nat), r < n →
      (List.range (m * n)).countP (fun j => j % n == r) = m := by
  intro m
  induction m with
  | zero => intro n r _; simp
  | succ m ih =>
    intro n r hr
    have hsm : (m + 1) * n = m * n + n := by ring
    rw [hsm, List.range_add, List.countP_append, ih n r hr, List.countP_map]
    have hone : List.countP ((fun j => j % n == r) ∘ (fun x => m * n + x))
        (List.range n) = 1 := by
      have hco : List.countP ((fun j => j % n == r) ∘ (fun x => m * n + x))
          (List.range n) = List.countP (fun j => j == r) (List.range n) := by
        apply List.countP_congr
        intro j hj
        have hj' := List.mem_range.mp hj
        have hmod : (m * n + j) % n = j := by
          rw [Nat.mul_comm, Nat.mul_add_mod]
          exact Nat.mod_eq_of_lt hj'
        simp [Function.comp, hmod]
      rw [hco]
      have hcnt : List.countP (fun j => j == r) (List.range n) =
          (List.range n).count r := by
        simp [List.count]
      rw [hcnt, List.count_eq_one_of_mem (List.nodup_range n)
        (List.mem_range.mpr hr)]
    omega

/-- A bucket mutation that keeps `id` and `depth` leaves the whole structural
skeleton of the table untouched. -/
theorem modifyBucket_struct (t : InnerTable) (bj : Nat) (f : Bucket → Bucket)
    (hf : ∀ b, (f b).id = b.id ∧ (f b).depth = b.depth) :
    (t.modifyBucket bj f).slots = t.slots ∧
    (t.modifyBucket bj f).size = t.size ∧
    (t.modifyBucket bj f).depth = t.depth ∧
    (t.modifyBucket bj f).arena.length = t.arena.length ∧
    (∀ i, (t.modifyBucket bj f).bucketIdxAt i = t.bucketIdxAt i) ∧
    (∀ i, ((t.modifyBucket bj f).bucketAt i).id = (t.bucketAt i).id ∧
      ((t.modifyBucket bj f).bucketAt i).depth = (t.bucketAt i).depth) := by
  refine ⟨rfl, rfl, rfl, List.length_set _ _ _, fun i => rfl, fun i => ?_⟩
  have hba : (t.modifyBucket bj f).bucketAt i =
      (if bj = t.bucketIdxAt i ∧ t.bucketIdxAt i < t.arena.length
        then f (t.arena.getD bj default)
        else t.arena.getD (t.bucketIdxAt i) default) := by
    show (t.arena.set bj (f (t.arena.getD bj default))).getD (t.bucketIdxAt i)
      default = _
    rw [xgetD_set]
  rw [hba]
  by_cases hc : bj = t.bucketIdxAt i ∧ t.bucketIdxAt i < t.arena.length
  · rw [if_pos hc]
    obtain ⟨h1, -⟩ := hc
    have hbi : t.bucketAt i = t.arena.getD bj default := by
      unfold InnerTable.bucketAt
      rw [← h1]
    rw [hbi]
    exact ⟨(hf _).1, (hf _).2⟩
  · rw [if_neg hc]
    exact ⟨rfl, rfl⟩

/-- `modifyBucket` with an id- and depth-preserving mutation preserves
structural well-formedness. -/
theorem WF_modifyBucket (maxSize : Nat) (t : InnerTable) (bj : Nat)
    (f : Bucket → Bucket)
    (hf : ∀ b, (f b).id = b.id ∧ (f b).depth = b.depth)
    (h : t.WF maxSize) : (t.modifyBucket bj f).WF maxSize := by
  obtain ⟨hs, hz, hd, hl, hidx, hbkt⟩ := modifyBucket_struct t bj f hf
  refine ⟨?_, ?_, ?_, ?_, ?_, ?_, ?_, ?_⟩
  · rw [hs, hz]; exact h.slots_len
  · rw [hz, hd]; exact h.size_eq
  · rw [hz, hd]; exact h.size_lt
  · intro i hi
    rw [hz] at hi
    rw [hidx, hl]
    exact h.idx_lt i hi
  · intro i hi
    rw [hz] at hi
    rw [(hbkt i).2, hd]
    exact h.depth_le i hi
  · intro i hi
    rw [hz] at hi
    rw [(hbkt i).1, (hbkt i).2]
    exact h.id_eq i hi
  · intro i j hi hj
    rw [hz] at hi hj
    rw [hidx, hidx, (hbkt i).2]
    exact h.alias_iff i j hi hj
  · intro b hb
    rw [hl] at hb
    obtain ⟨i, hi, hieq⟩ := h.surj b hb
    exact ⟨i, by rw [hz]; exact hi, by rw [hidx]; exact hieq⟩

/-- A successful `double_table` preserves structural well-formedness. -/
theorem WF_double (maxSize : Nat) (t t' : InnerTable)
    (hd : double_table maxSize t = some t') (h : t.WF maxSize) :
    t'.WF maxSize := by
  obtain ⟨ht', hlt⟩ := double_table_eq maxSize t t' hd
  subst ht'
  have hpos : 0 < t.size := by rw [h.size_eq]; exact Nat.two_pow_pos _
  have hidx : ∀ i, i < t.size * 2 →
      InnerTable.bucketIdxAt
        { t with slots := t.slots ++ t.slots, size := t.size * 2,
                 depth := t.depth + 1 } i = t.bucketIdxAt (i % t.size) := by
    intro i hi
    show (t.slots ++ t.slots).getD i 0 = t.slots.getD (i % t.size) 0
    by_cases hc : i < t.size
    · rw [List.getD_append _ _ _ _ (by rw [h.slots_len]; exact hc),
        Nat.mod_eq_of_lt hc]
    · rw [List.getD_append_right _ _ _ _ (by rw [h.slots_len]; omega)]
      have hms : i % t.size = i - t.size := by
        rw [Nat.mod_eq_sub_mod (by omega)]
        exact Nat.mod_eq_of_lt (by omega)
      rw [hms, h.slots_len]
  have hbkt : ∀ i, i < t.size * 2 →
      InnerTable.bucketAt
        { t with slots := t.slots ++ t.slots, size := t.size * 2,
                 depth := t.depth + 1 } i = t.bucketAt (i % t.size) := by
    intro i hi
    unfold InnerTable.bucketAt
    rw [hidx i hi]
  have hmod : ∀ i, i < t.size * 2 → i % t.size < t.size :=
    fun i _ => Nat.mod_lt i hpos
  have hdvd : ∀ i, ∀ db, db ≤ t.depth →
      i % t.size % 2 ^ db = i % 2 ^ db := by
    intro i db hdb
    refine Nat.mod_mod_of_dvd i ?_
    rw [h.size_eq]
    exact Nat.pow_dvd_pow 2 hdb
  refine ⟨?_, ?_, ?_, ?_, ?_, ?_, ?_, ?_⟩
  · show (t.slots ++ t.slots).length = t.size * 2
    rw [List.length_append, h.slots_len]
    ring
  · show t.size * 2 = 2 ^ (t.depth + 1)
    rw [h.size_eq]
    ring
  · exact Or.inr hlt
  · intro i hi
    rw [hidx i hi]
    exact h.idx_lt _ (hmod i hi)
  · intro i hi
    rw [hbkt i hi]
    exact Nat.le_succ_of_le (h.depth_le _ (hmod i hi))
  · intro i hi
    rw [hbkt i hi, h.id_eq _ (hmod i hi),
      hdvd i _ (h.depth_le _ (hmod i hi))]
  · intro i j hi hj
    rw [hidx i hi, hidx j hj, hbkt i hi,
      h.alias_iff _ _ (hmod i hi) (hmod j hj),
      hdvd i _ (h.depth_le _ (hmod i hi)),
      hdvd j _ (h.depth_le _ (hmod i hi))]
  · intro b hb
    obtain ⟨i, hi, hieq⟩ := h.surj b hb
    refine ⟨i, show i < t.size * 2 by omega, ?_⟩
    rw [hidx i (by omega), Nat.mod_eq_of_lt hi]
    exact hieq

/-- The redirect loop preserves the slot-array length. -/
theorem redirect_slots_length (s : List Nat) (suffix nd nb : Nat) :
    ∀ p, (redirect_slots s suffix nd nb p).length = s.length := by
  intro p
  induction p with
  | zero => rfl
  | succ p ih => simp only [redirect_slots, List.length_set, ih]

/-- Slots outside the redirected residue class are unchanged. -/
theorem redirect_slots_getD_of_ne (s : List Nat) (suffix nd nb : Nat)
    (hs : suffix < 2 ^ nd) :
    ∀ p i, (∀ q, q < p → i ≠ q * 2 ^ nd + suffix) →
      (redirect_slots s suffix nd nb p).getD i 0 = s.getD i 0 := by
  intro p
  induction p with
  | zero => intro i _; rfl
  | succ p ih =>
    intro i hne
    simp only [redirect_slots]
    rw [xgetD_set, shiftLeft_lor_eq_add nd p suffix hs]
    rw [if_neg]
    · exact ih i (fun q hq => hne q (Nat.lt_succ_of_lt hq))
    · rintro ⟨hc, -⟩
      exact hne p (Nat.lt_succ_self p) hc.symm

/-- Slots in the redirected residue class point at the new bucket. -/
theorem redirect_slots_getD_of_eq (s : List Nat) (suffix nd nb : Nat)
    (hs : suffix < 2 ^ nd) :
    ∀ p q, q < p → q * 2 ^ nd + suffix < s.length →
      (redirect_slots s suffix nd nb p).getD (q * 2 ^ nd + suffix) 0 = nb := by
  intro p
  induction p with
  | zero => intro q hq _; omega
  | succ p ih =>
    intro q hq hlen
    simp only [redirect_slots]
    rw [xgetD_set, shiftLeft_lor_eq_add nd p suffix hs]
    by_cases hqp : q = p
    · subst hqp
      rw [if_pos ⟨rfl, by rw [redirect_slots_length]; exact hlen⟩]
    · rw [if_neg]
      · exact ih q (by omega) hlen
      · rintro ⟨hc, -⟩
        exact hqp (Nat.eq_of_mul_eq_mul_right (Nat.two_pow_pos nd) (by omega)).symm

/-- Core extendible-hashing step: redirecting every second alias of a bucket
(of depth `d`, id `r`, arena index `bidx`) to a freshly appended sibling of
depth `d + 1` and bumping the old bucket's depth preserves structural
well-formedness, provided the bucket is not down to its last pointer
(`d < t.depth`). -/
theorem WF_redirect_split (maxSize : Nat) (t : InnerTable) (bidx d r nk : Nat)
    (h : t.WF maxSize)
    (hblt : bidx < t.arena.length)
    (hbdep : (t.arena.getD bidx default).depth = d)
    (hbid : (t.arena.getD bidx default).id = r)
    (hdlt : d < t.depth)
    (haddr : ∃ a, a < t.size ∧ t.bucketIdxAt a = bidx) :
    InnerTable.WF maxSize
      { arena := (t.arena.set bidx { t.arena.getD bidx default with depth := d + 1 }) ++
          [{ id := 2 ^ d + r, depth := d + 1, full := false, key := 0 }],
        slots := redirect_slots t.slots (2 ^ d + r) (d + 1) t.arena.length
          (2 ^ (t.depth - (d + 1))),
        size := t.size, depth := t.depth, nkeys := nk } := by
  obtain ⟨a, haS, haB⟩ := haddr
  have hra : r = a % 2 ^ d := by
    have := h.id_eq a haS
    unfold InnerTable.bucketAt at this
    rw [haB, hbid, hbdep] at this
    exact this
  have hrlt : r < 2 ^ d := by
    rw [hra]; exact Nat.mod_lt a (Nat.two_pow_pos d)
  have hp2 : (2 : Nat) ^ (d + 1) = 2 * 2 ^ d := by ring
  have hs2 : 2 ^ d + r < 2 ^ (d + 1) := by omega
  have hd1 : d + 1 ≤ t.depth := hdlt
  have hsize : t.size = 2 ^ t.depth := h.size_eq
  have hslen : t.slots.length = t.size := h.slots_len
  have hszlt : 2 ^ (d + 1) ≤ t.size := by
    rw [hsize]; exact Nat.pow_le_pow_right (by omega) hd1
  -- membership of the old residue class characterises aliasing with bidx
  have hcls : ∀ i, i < t.size → (t.bucketIdxAt i = bidx ↔ i % 2 ^ d = r) := by
    intro i hi
    have hda : (t.bucketAt a).depth = d := by
      unfold InnerTable.bucketAt; rw [haB, hbdep]
    have := h.alias_iff a i haS hi
    rw [haB, hda, ← hra] at this
    constructor
    · intro hx
      have : r = i % 2 ^ d := this.mp hx.symm
      exact this.symm
    · intro hx
      exact (this.mpr hx.symm).symm
  -- arithmetic on the two half-classes
  have harith2 : ∀ i : Nat, i % 2 ^ (d + 1) = 2 ^ d + r → i % 2 ^ d = r := by
    intro i hc
    have hdvd : (2 : Nat) ^ d ∣ 2 ^ (d + 1) := Nat.pow_dvd_pow 2 (Nat.le_succ d)
    have hmm := Nat.mod_mod_of_dvd i hdvd
    rw [hc] at hmm
    rw [← hmm, Nat.add_mod_left]
    exact Nat.mod_eq_of_lt hrlt
  have harith1 : ∀ i : Nat, i % 2 ^ d = r →
      i % 2 ^ (d + 1) = r ∨ i % 2 ^ (d + 1) = 2 ^ d + r := by
    intro i hc
    have hdvd : (2 : Nat) ^ d ∣ 2 ^ (d + 1) := Nat.pow_dvd_pow 2 (Nat.le_succ d)
    have hmm := Nat.mod_mod_of_dvd i hdvd
    rw [hc] at hmm
    have hv := Nat.div_add_mod (i % 2 ^ (d + 1)) (2 ^ d)
    have hvlt : i % 2 ^ (d + 1) < 2 ^ (d + 1) := Nat.mod_lt i (Nat.two_pow_pos _)
    have hq2 : i % 2 ^ (d + 1) / 2 ^ d < 2 := by
      apply Nat.div_lt_of_lt_mul
      omega
    interval_cases hqv : i % 2 ^ (d + 1) / 2 ^ d <;> omega
  -- the new slot map
  have hidxT : ∀ i, i < t.size →
      (redirect_slots t.slots (2 ^ d + r) (d + 1) t.arena.length
        (2 ^ (t.depth - (d + 1)))).getD i 0 =
      (if i % 2 ^ (d + 1) = 2 ^ d + r then t.arena.length else t.bucketIdxAt i) := by
    intro i hi
    by_cases hci : i % 2 ^ (d + 1) = 2 ^ d + r
    · rw [if_pos hci]
      obtain ⟨q, hq, hqe⟩ :=
        (mod_class_iff t.depth (d + 1) i (2 ^ d + r) hd1 hs2
          (by rw [← hsize]; exact hi)).mp hci
      rw [hqe]
      exact redirect_slots_getD_of_eq t.slots (2 ^ d + r) (d + 1) t.arena.length
        hs2 _ q hq (by rw [hslen, ← hqe]; exact hi)
    · rw [if_neg hci]
      apply redirect_slots_getD_of_ne t.slots (2 ^ d + r) (d + 1) t.arena.length
        hs2
      intro q hq hqe
      apply hci
      rw [hqe, Nat.mul_comm, Nat.mul_add_mod]
      exact Nat.mod_eq_of_lt hs2
  -- the new bucket map
  have hbktT : ∀ i, i < t.size →
      ((t.arena.set bidx { t.arena.getD bidx default with depth := d + 1 }) ++
        ([{ id := 2 ^ d + r, depth := d + 1, full := false, key := 0 }] :
          List Bucket)).getD
        ((redirect_slots t.slots (2 ^ d + r) (d + 1) t.arena.length
          (2 ^ (t.depth - (d + 1)))).getD i 0) default =
      (if i % 2 ^ (d + 1) = 2 ^ d + r then
        ({ id := 2 ^ d + r, depth := d + 1, full := false, key := 0 } : Bucket)
      else if t.bucketIdxAt i = bidx then
        { t.arena.getD bidx default with depth := d + 1 }
      else t.arena.getD (t.bucketIdxAt i) default) := by
    intro i hi
    rw [hidxT i hi]
    by_cases hci : i % 2 ^ (d + 1) = 2 ^ d + r
    · rw [if_pos hci, if_pos hci]
      rw [List.getD_append_right _ _ _ _ (by rw [List.length_set])]
      rw [List.length_set, Nat.sub_self]
      rfl
    · rw [if_neg hci, if_neg hci]
      rw [List.getD_append _ _ _ _ (by rw [List.length_set]; exact h.idx_lt i hi)]
      rw [xgetD_set]
      by_cases hbi : t.bucketIdxAt i = bidx
      · rw [if_pos ⟨hbi.symm, by rw [hbi]; exact hblt⟩, if_pos hbi]
      · rw [if_neg (by rintro ⟨hc, -⟩; exact hbi hc.symm), if_neg hbi]
  refine ⟨?_, ?_, ?_, ?_, ?_, ?_, ?_, ?_⟩
  · show (redirect_slots _ _ _ _ _).length = t.size
    rw [redirect_slots_length, hslen]
  · exact h.size_eq
  · rcases h.size_lt with hd0 | hlt
    · omega
    · exact Or.inr hlt
  · intro i hi
    show (redirect_slots _ _ _ _ _).getD i 0 <
      ((t.arena.set _ _) ++ [_]).length
    rw [hidxT i hi, List.length_append, List.length_set]
    by_cases hci : i % 2 ^ (d + 1) = 2 ^ d + r
    · rw [if_pos hci]; simp
    · rw [if_neg hci]
      have := h.idx_lt i hi
      simp
      omega
  · intro i hi
    show (InnerTable.bucketAt _ i).depth ≤ t.depth
    unfold InnerTable.bucketAt InnerTable.bucketIdxAt
    rw [hbktT i hi]
    by_cases hci : i % 2 ^ (d + 1) = 2 ^ d + r
    · rw [if_pos hci]; exact hd1
    · rw [if_neg hci]
      by_cases hbi : t.bucketIdxAt i = bidx
      · rw [if_pos hbi]; exact hd1
      · rw [if_neg hbi]
        have := h.depth_le i hi
        unfold InnerTable.bucketAt at this
        exact this
  · intro i hi
    show (InnerTable.bucketAt _ i).id =
      i % 2 ^ (InnerTable.bucketAt _ i).depth
    unfold InnerTable.bucketAt InnerTable.bucketIdxAt
    rw [hbktT i hi]
    by_cases hci : i % 2 ^ (d + 1) = 2 ^ d + r
    · rw [if_pos hci]
      exact hci.symm
    · rw [if_neg hci]
      by_cases hbi : t.bucketIdxAt i = bidx
      · rw [if_pos hbi]
        show (t.arena.getD bidx default).id = i % 2 ^ (d + 1)
        rw [hbid]
        have hir : i % 2 ^ d = r := (hcls i hi).mp hbi
        rcases harith1 i hir with hcase | hcase
        · exact hcase.symm
        · exact absurd hcase hci
      · rw [if_neg hbi]
        have := h.id_eq i hi
        unfold InnerTable.bucketAt at this
        exact this
  · intro i j hi hj
    show (redirect_slots _ _ _ _ _).getD i 0 = (redirect_slots _ _ _ _ _).getD j 0 ↔
      i % 2 ^ (InnerTable.bucketAt _ i).depth = j % 2 ^ (InnerTable.bucketAt _ i).depth
    unfold InnerTable.bucketAt InnerTable.bucketIdxAt
    rw [hbktT i hi, hidxT i hi, hidxT j hj]
    by_cases hci : i % 2 ^ (d + 1) = 2 ^ d + r
    · rw [if_pos hci, if_pos hci]
      by_cases hcj : j % 2 ^ (d + 1) = 2 ^ d + r
      · rw [if_pos hcj]
        simp only [iff_true_intro rfl, true_iff]
        rw [hci, hcj]
      · rw [if_neg hcj]
        constructor
        · intro he
          exact absurd he.symm (Nat.ne_of_lt (h.idx_lt j hj))
        · intro he
          exact absurd (he ▸ hci) hcj
    · rw [if_neg hci, if_neg hci]
      by_cases hcj : j % 2 ^ (d + 1) = 2 ^ d + r
      · rw [if_pos hcj]
        by_cases hbi : t.bucketIdxAt i = bidx
        · rw [if_pos hbi]
          constructor
          · intro he
            exact absurd he (Nat.ne_of_lt (h.idx_lt i hi))
          · intro he
            exact absurd (he.symm ▸ hcj) hci
        · rw [if_neg hbi]
          constructor
          · intro he
            exact absurd he (Nat.ne_of_lt (h.idx_lt i hi))
          · intro he
            exfalso
            have hbj : t.bucketIdxAt j = bidx :=
              (hcls j hj).mpr (harith2 j hcj)
            have := (h.alias_iff i j hi hj).mpr
            unfold InnerTable.bucketAt at this
            exact hbi ((this he).trans hbj)
      · rw [if_neg hcj]
        by_cases hbi : t.bucketIdxAt i = bidx
        · rw [if_pos hbi]
          have hir : i % 2 ^ d = r := (hcls i hi).mp hbi
          have hi1 : i % 2 ^ (d + 1) = r := by
            rcases harith1 i hir with hc | hc
            · exact hc
            · exact absurd hc hci
          constructor
          · intro he
            have hbj : t.bucketIdxAt j = bidx := he ▸ hbi
            have hjr : j % 2 ^ d = r := (hcls j hj).mp hbj
            have hj1 : j % 2 ^ (d + 1) = r := by
              rcases harith1 j hjr with hc | hc
              · exact hc
              · exact absurd hc hcj
            rw [hi1, hj1]
          · intro he
            have hjr : j % 2 ^ d = r := by
              have hdvd : (2 : Nat) ^ d ∣ 2 ^ (d + 1) :=
                Nat.pow_dvd_pow 2 (Nat.le_succ d)
              have h1 := Nat.mod_mod_of_dvd i hdvd
              have h2 := Nat.mod_mod_of_dvd j hdvd
              rw [← h2, ← he, h1]
              exact hir
            rw [(hcls j hj).mpr hjr]
            exact hbi
        · rw [if_neg hbi]
          have := h.alias_iff i j hi hj
          unfold InnerTable.bucketAt at this
          exact this
  · intro b hb
    rw [List.length_append, List.length_set] at hb
    by_cases hbl : b = t.arena.length
    · refine ⟨2 ^ d + r, show 2 ^ d + r < t.size by omega, ?_⟩
      show (redirect_slots _ _ _ _ _).getD (2 ^ d + r) 0 = b
      rw [hidxT _ (by omega), if_pos (Nat.mod_eq_of_lt hs2), hbl]
    · have hbl' : b < t.arena.length := by simp at hb; omega
      obtain ⟨i, hi, hieq⟩ := h.surj b hbl'
      by_cases hci : i % 2 ^ (d + 1) = 2 ^ d + r
      · have hbb : b = bidx := by
          rw [← hieq]
          exact (hcls i hi).mpr (harith2 i hci)
        refine ⟨r, show r < t.size by omega, ?_⟩
        show (redirect_slots _ _ _ _ _).getD r 0 = b
        have hrnc : r % 2 ^ (d + 1) ≠ 2 ^ d + r := by
          rw [Nat.mod_eq_of_lt (by omega)]
          omega
        rw [hidxT r (by omega), if_neg hrnc, hbb]
        exact (hcls r (by omega)).mpr (Nat.mod_eq_of_lt hrlt)
      · refine ⟨i, hi, ?_⟩
        show (redirect_slots _ _ _ _ _).getD i 0 = b
        rw [hidxT i hi, if_neg hci]
        exact hieq

/-- `reinsert_key` preserves structural well-formedness (it only writes the
`key`/`full` fields of one bucket). -/
theorem WF_reinsert_key (maxSize : Nat) (P : XuckooParams) (t : InnerTable)
    (k : Int) (n : Nat) (h : t.WF maxSize) :
    (reinsert_key P t k n).WF maxSize := by
  unfold reinsert_key
  exact WF_modifyBucket maxSize t _ _ (fun b => ⟨rfl, rfl⟩) h

/-- A successful `double_table` does not move the bucket referenced by an
in-range slot. -/
theorem double_table_bucketAt (maxSize : Nat) (t t' : InnerTable)
    (hd : double_table maxSize t = some t') (hw : t.WF maxSize)
    (a : Nat) (ha : a < t.size) :
    t'.bucketIdxAt a = t.bucketIdxAt a ∧ t'.bucketAt a = t.bucketAt a ∧
    t'.size = t.size * 2 ∧ t'.depth = t.depth + 1 ∧
    t'.arena = t.arena := by
  obtain ⟨ht', -⟩ := double_table_eq maxSize t t' hd
  subst ht'
  have hidx : InnerTable.bucketIdxAt
      { t with slots := t.slots ++ t.slots, size := t.size * 2,
               depth := t.depth + 1 } a = t.bucketIdxAt a := by
    show (t.slots ++ t.slots).getD a 0 = t.slots.getD a 0
    exact List.getD_append _ _ _ _ (by rw [hw.slots_len]; exact ha)
  refine ⟨hidx, ?_, rfl, rfl, rfl⟩
  unfold InnerTable.bucketAt
  rw [hidx]

/-- `split_inner` preserves structural well-formedness when the target bucket
is strictly below the table depth. -/
theorem WF_split_inner (maxSize : Nat) (P : XuckooParams) (inner1 : InnerTable)
    (address table_no : Nat) (h : inner1.WF maxSize)
    (ha : address < inner1.size)
    (hdlt : (inner1.arena.getD (inner1.bucketIdxAt address) default).depth <
      inner1.depth) :
    (split_inner P inner1 address table_no).WF maxSize := by
  have hblt : inner1.bucketIdxAt address < inner1.arena.length :=
    h.idx_lt address ha
  have hid : (inner1.arena.getD (inner1.bucketIdxAt address) default).id =
      address % 2 ^ (inner1.arena.getD (inner1.bucketIdxAt address) default).depth :=
    h.id_eq address ha
  have hr : (inner1.arena.getD (inner1.bucketIdxAt address) default).id <
      2 ^ (inner1.arena.getD (inner1.bucketIdxAt address) default).depth := by
    rw [hid]
    exact Nat.mod_lt address (Nat.two_pow_pos _)
  have hrmb : rightmostnbits
      (inner1.arena.getD (inner1.bucketIdxAt address) default).depth
      (inner1.arena.getD (inner1.bucketIdxAt address) default).id =
      (inner1.arena.getD (inner1.bucketIdxAt address) default).id :=
    Nat.mod_eq_of_lt hr
  have hlor : (1 <<< (inner1.arena.getD (inner1.bucketIdxAt address) default).depth) |||
      (inner1.arena.getD (inner1.bucketIdxAt address) default).id =
      2 ^ (inner1.arena.getD (inner1.bucketIdxAt address) default).depth +
        (inner1.arena.getD (inner1.bucketIdxAt address) default).id := by
    rw [shiftLeft_lor_eq_add _ _ _ hr, Nat.one_mul]
  unfold split_inner
  apply WF_reinsert_key
  apply WF_modifyBucket
  · exact fun b => ⟨rfl, rfl⟩
  show InnerTable.WF maxSize
    { arena := (inner1.arena.set (inner1.bucketIdxAt address)
        { inner1.arena.getD (inner1.bucketIdxAt address) default with
          depth := (inner1.arena.getD (inner1.bucketIdxAt address) default).depth + 1 }) ++
        [new_bucket
          ((1 <<< (inner1.arena.getD (inner1.bucketIdxAt address) default).depth) |||
            (inner1.arena.getD (inner1.bucketIdxAt address) default).id)
          ((inner1.arena.getD (inner1.bucketIdxAt address) default).depth + 1)],
      slots := redirect_slots inner1.slots
        ((1 <<< (inner1.arena.getD (inner1.bucketIdxAt address) default).depth) |||
          rightmostnbits
            (inner1.arena.getD (inner1.bucketIdxAt address) default).depth
            (inner1.arena.getD (inner1.bucketIdxAt address) default).id)
        ((inner1.arena.getD (inner1.bucketIdxAt address) default).depth + 1)
        (inner1.arena.set (inner1.bucketIdxAt address)
          { inner1.arena.getD (inner1.bucketIdxAt address) default with
            depth := (inner1.arena.getD (inner1.bucketIdxAt address) default).depth + 1 }).length
        (2 ^ (inner1.depth -
          ((inner1.arena.getD (inner1.bucketIdxAt address) default).depth + 1))),
      size := inner1.size, depth := inner1.depth, nkeys := inner1.nkeys }
  rw [hrmb, hlor, List.length_set]
  unfold new_bucket
  exact WF_redirect_split maxSize inner1 (inner1.bucketIdxAt address)
    (inner1.arena.getD (inner1.bucketIdxAt address) default).depth
    (inner1.arena.getD (inner1.bucketIdxAt address) default).id
    inner1.nkeys h hblt rfl rfl hdlt ⟨address, ha, rfl⟩

/-- A successful `split_bucket` preserves structural well-formedness of both
inner tables. -/
theorem WF_split_bucket (P : XuckooParams) (t t' : XuckooHashTable)
    (address table_no : Nat)
    (h1 : t.table1.WF P.maxSize) (h2 : t.table2.WF P.maxSize)
    (ha : address < (if table_no = 1 then t.table1 else t.table2).size)
    (hsp : split_bucket P t address table_no = some t') :
    t'.table1.WF P.maxSize ∧ t'.table2.WF P.maxSize := by
  obtain ⟨inner1, hg, ht'⟩ := split_bucket_some P t address table_no t' hsp
  have hw0 : (if table_no = 1 then t.table1 else t.table2).WF P.maxSize := by
    by_cases hno : table_no = 1 <;> simp [hno, h1, h2]
  have hkey : inner1.WF P.maxSize ∧ address < inner1.size ∧
      (inner1.arena.getD (inner1.bucketIdxAt address) default).depth <
        inner1.depth := by
    by_cases hgd : ((if table_no = 1 then t.table1 else t.table2).bucketAt
        address).depth = (if table_no = 1 then t.table1 else t.table2).depth
    · rw [if_pos hgd] at hg
      refine ⟨WF_double _ _ _ hg hw0, ?_, ?_⟩
      · obtain ⟨-, -, hsz, -, -⟩ :=
          double_table_bucketAt _ _ _ hg hw0 address ha
        omega
      · obtain ⟨-, hbk, -, hdp, -⟩ :=
          double_table_bucketAt _ _ _ hg hw0 address ha
        show (inner1.bucketAt address).depth < inner1.depth
        rw [hbk, hgd, hdp]
        omega
    · rw [if_neg hgd] at hg
      simp only [Option.some.injEq] at hg
      subst hg
      refine ⟨hw0, ha, ?_⟩
      have := hw0.depth_le address ha
      unfold InnerTable.bucketAt at this hgd
      omega
  obtain ⟨hw1, ha1, hdl1⟩ := hkey
  have hwsi : (split_inner P inner1 address table_no).WF P.maxSize :=
    WF_split_inner P.maxSize P inner1 address table_no hw1 ha1 hdl1
  subst ht'
  unfold split_install
  by_cases hno : table_no = 1
  · rw [if_pos hno]
    exact ⟨hwsi, h2⟩
  · rw [if_neg hno]
    exact ⟨h1, hwsi⟩

/-- Well-formedness does not mention the per-table key counter. -/
theorem WF_set_nkeys (maxSize : Nat) (t : InnerTable) (n : Nat)
    (h : t.WF maxSize) : InnerTable.WF maxSize { t with nkeys := n } := by
  obtain ⟨a, b, c, d, e, f, g, s⟩ := h
  exact ⟨a, b, c, d, e, f, g, s⟩

/-- The step's active inner table, phrased through the table number. -/
theorem xuck_step_inner_eq (t : XuckooHashTable) (loop : Nat) :
    xuck_step_inner t loop =
      (if xuck_step_table_no loop = 1 then t.table1 else t.table2) := by
  unfold xuck_step_inner xuck_step_table_no xuck_active_table_no
  by_cases hp : (loop + 1) % 2 = 0 <;> simp [hp]

/-- The address a displacement step computes is within the active table's
slot array. -/
theorem xuck_step_address_lt (P : XuckooParams) (t : XuckooHashTable)
    (key : Int) (loop : Nat) (hw : (xuck_step_inner t loop).WF P.maxSize) :
    xuck_step_address P t key loop < (xuck_step_inner t loop).size := by
  unfold xuck_step_address rightmostnbits
  rw [hw.size_eq]
  exact Nat.mod_lt _ (Nat.two_pow_pos _)

/-- The fueled interpreter preserves structural well-formedness of both inner
tables. -/
theorem xuck_run_WF (P : XuckooParams) :
    ∀ (fuel : Nat) (c : XCall) (b : Bool) (t' : XuckooHashTable),
      c.state.table1.WF P.maxSize → c.state.table2.WF P.maxSize →
      xuck_run P fuel c = .done b t' →
      t'.table1.WF P.maxSize ∧ t'.table2.WF P.maxSize := by
  intro fuel
  induction fuel with
  | zero => intro c b t' _ _ h; simp [xuck_run] at h
  | succ n ih =>
    intro c b t' hw1 hw2 h
    cases c with
    | ins t key =>
      simp only [XCall.state] at hw1 hw2
      simp only [xuck_run] at h
      by_cases hl : xuckoo_hash_table_lookup P t key
      · rw [if_pos hl] at h
        injection h with hb ht
        subst ht
        exact ⟨hw1, hw2⟩
      · rw [if_neg hl] at h
        by_cases hs : xuck_start_table_no t = 1
        · rw [if_pos hs] at h
          cases hr : xuck_run P n
              (.step t key (rightmostnbits t.table1.depth (P.h1 key)) key 0 1) with
          | done b2 t2 =>
            rw [hr] at h
            injection h with hb ht
            subst ht
            refine ih _ _ _ ?_ ?_ hr
            · exact hw1
            · exact hw2
          | fatal => rw [hr] at h; exact absurd h (by simp)
          | nofuel => rw [hr] at h; exact absurd h (by simp)
        · rw [if_neg hs] at h
          cases hr : xuck_run P n
              (.step t key (rightmostnbits t.table2.depth (P.h2 key)) key 1 2) with
          | done b2 t2 =>
            rw [hr] at h
            injection h with hb ht
            subst ht
            refine ih _ _ _ ?_ ?_ hr
            · exact hw1
            · exact hw2
          | fatal => rw [hr] at h; exact absurd h (by simp)
          | nofuel => rw [hr] at h; exact absurd h (by simp)
    | step t key orig_pos orig_key loop orig_table =>
      simp only [XCall.state] at hw1 hw2
      simp only [xuck_run] at h
      by_cases hgd : xuck_guard P t key orig_pos orig_key loop
      · rw [if_pos hgd] at h
        cases hsp : split_bucket P t (xuck_step_address P t key loop)
            (xuck_step_table_no loop) with
        | none => rw [hsp] at h; exact absurd h (by simp)
        | some t2 =>
          rw [hsp] at h
          have hwin : (xuck_step_inner t loop).WF P.maxSize := by
            unfold xuck_step_inner
            split
            · exact hw2
            · exact hw1
          have ha' : xuck_step_address P t key loop <
              (if xuck_step_table_no loop = 1 then t.table1 else t.table2).size := by
            have h0 := xuck_step_address_lt P t key loop hwin
            rw [xuck_step_inner_eq] at h0
            exact h0
          obtain ⟨hs1, hs2⟩ := WF_split_bucket P t t2
            (xuck_step_address P t key loop) (xuck_step_table_no loop)
            hw1 hw2 ha' hsp
          refine ih _ _ _ ?_ ?_ h
          · exact hs1
          · exact hs2
      · rw [if_neg hgd] at h
        by_cases hf : ((xuck_step_inner t loop).bucketAt
            (xuck_step_address P t key loop)).full
        · rw [if_pos hf] at h
          by_cases h2 : xuck_step_table_no loop = 2
          · rw [if_pos h2] at h
            refine ih _ _ _ ?_ ?_ h
            · exact hw1
            · show ((xuck_step_inner t loop).modifyBucket
                  ((xuck_step_inner t loop).bucketIdxAt
                    (xuck_step_address P t key loop))
                  (fun b => { b with key := key })).WF P.maxSize
              refine WF_modifyBucket _ _ _ _ ?_ ?_
              · exact fun b => ⟨rfl, rfl⟩
              · simp only [xuck_step_inner, h2, ite_true]
                exact hw2
          · rw [if_neg h2] at h
            refine ih _ _ _ ?_ ?_ h
            · show ((xuck_step_inner t loop).modifyBucket
                  ((xuck_step_inner t loop).bucketIdxAt
                    (xuck_step_address P t key loop))
                  (fun b => { b with key := key })).WF P.maxSize
              refine WF_modifyBucket _ _ _ _ ?_ ?_
              · exact fun b => ⟨rfl, rfl⟩
              · simp only [xuck_step_inner, h2, ite_false]
                exact hw1
            · exact hw2
        · rw [if_neg hf] at h
          by_cases h2 : xuck_step_table_no loop = 2
          · rw [if_pos h2] at h
            injection h with hb ht
            subst ht
            refine ⟨hw1, ?_⟩
            refine WF_set_nkeys _ _ _ ?_
            refine WF_modifyBucket _ _ _ _ ?_ ?_
            · exact fun b => ⟨rfl, rfl⟩
            · simp only [xuck_step_inner, h2, ite_true]
              exact hw2
          · rw [if_neg h2] at h
            injection h with hb ht
            subst ht
            refine ⟨?_, hw2⟩
            refine WF_set_nkeys _ _ _ ?_
            refine WF_modifyBucket _ _ _ _ ?_ ?_
            · exact fun b => ⟨rfl, rfl⟩
            · simp only [xuck_step_inner, h2, ite_false]
              exact hw1

/-- The fresh inner table is well-formed. -/
theorem new_inner_table_WF (maxSize : Nat) : new_inner_table.WF maxSize := by
  refine ⟨rfl, rfl, Or.inl rfl, ?_, ?_, ?_, ?_, ?_⟩
  · intro i hi
    have h1 : i = 0 := by have : i < 1 := hi; omega
    subst h1; decide
  · intro i hi
    have h1 : i = 0 := by have : i < 1 := hi; omega
    subst h1; decide
  · intro i hi
    have h1 : i = 0 := by have : i < 1 := hi; omega
    subst h1; decide
  · intro i j hi hj
    have h1 : i = 0 := by have : i < 1 := hi; omega
    have h2 : j = 0 := by have : j < 1 := hj; omega
    subst h1; subst h2; decide
  · intro b hb
    have h1 : b = 0 := by have : b < 1 := hb; omega
    subst h1
    exact ⟨0, Nat.zero_lt_one, rfl⟩

/-- Every reachable state is structurally well-formed. -/
theorem reachable_WF (P : XuckooParams) (t : XuckooHashTable)
    (h : Reachable P t) :
    t.table1.WF P.maxSize ∧ t.table2.WF P.maxSize := by
  induction h with
  | init => exact ⟨new_inner_table_WF _, new_inner_table_WF _⟩
  | insert hre hins ih =>
    refine xuck_run_WF P _ _ _ _ ?_ ?_ hins
    · exact ih.1
    · exact ih.2

/-- Counting a single residue over `List.range n`. -/
theorem countP_range_eq_one (n r : Nat) (hr : r < n) :
    (List.range n).countP (fun j => j == r) = 1 := by
  have h := countP_range_mod 1 n r hr
  rw [Nat.one_mul] at h
  rw [← h]
  apply List.countP_congr
  intro a hamem
  have halt := List.mem_range.mp hamem
  simp [beq_iff_eq, Nat.mod_eq_of_lt halt]

/-- `countP` is invariant under list reversal. -/
theorem xcountP_reverse (p : Nat → Bool) (l : List Nat) :
    l.reverse.countP p = l.countP p := by
  induction l with
  | nil => rfl
  | cons a l ih =>
    rw [List.reverse_cons, List.countP_append, List.countP_cons, ih,
      List.countP_cons]
    simp

/-- **C7** (confirmed).  In every reachable state, for each inner table and
each in-range slot `i`: the referenced bucket's local depth is at most the
table's global depth, the bucket is referenced by exactly
`2 ^ (global_depth - local_depth)` slots, and all slots referencing it agree
with `i` on the bucket's low-order `local_depth` bits. -/
theorem c7_slot_sharing (P : XuckooParams) (t : XuckooHashTable)
    (hre : Reachable P t) :
    ∀ it ∈ [t.table1, t.table2], ∀ i, i < it.size →
      (it.bucketAt i).depth ≤ it.depth ∧
      ref_count it (it.bucketIdxAt i) =
        2 ^ (it.depth - (it.bucketAt i).depth) ∧
      ∀ j, j < it.size → it.bucketIdxAt j = it.bucketIdxAt i →
        j % 2 ^ (it.bucketAt i).depth = i % 2 ^ (it.bucketAt i).depth := by
  have hww := reachable_WF P t hre
  intro it hit
  have hw : it.WF P.maxSize := by
    simp only [List.mem_cons, List.not_mem_nil, or_false] at hit
    rcases hit with h | h
    · rw [h]; exact hww.1
    · rw [h]; exact hww.2
  intro i hi
  have hdle := hw.depth_le i hi
  refine ⟨hdle, ?_, ?_⟩
  · have hsz : it.size = 2 ^ (it.depth - (it.bucketAt i).depth) *
        2 ^ (it.bucketAt i).depth := by
      rw [hw.size_eq, ← Nat.pow_add, Nat.sub_add_cancel hdle]
    unfold ref_count
    have hcong : (List.range it.size).countP
        (fun a => it.bucketIdxAt a == it.bucketIdxAt i) =
        (List.range it.size).countP
          (fun a => a % 2 ^ (it.bucketAt i).depth ==
            i % 2 ^ (it.bucketAt i).depth) := by
      apply List.countP_congr
      intro a hamem
      have halt : a < it.size := List.mem_range.mp hamem
      have hiff := hw.alias_iff i a hi halt
      simp only [beq_iff_eq]
      constructor
      · intro hh
        exact (hiff.mp hh.symm).symm
      · intro hh
        exact (hiff.mpr hh.symm).symm
    rw [hcong, hsz]
    exact countP_range_mod _ _ _ (Nat.mod_lt _ (Nat.two_pow_pos _))
  · intro j hj hji
    exact ((hw.alias_iff i j hi hj).mp hji.symm).symm

/-- Witness for C7: the slot-sharing invariant evaluated at slot 0 of the
fresh table's first inner table. -/
theorem c7_slot_sharing_witness :
    (new_xuckoo_hash_table.table1.bucketAt 0).depth ≤
      new_xuckoo_hash_table.table1.depth ∧
    ref_count new_xuckoo_hash_table.table1
      (new_xuckoo_hash_table.table1.bucketIdxAt 0) =
      2 ^ (new_xuckoo_hash_table.table1.depth -
        (new_xuckoo_hash_table.table1.bucketAt 0).depth) :=
  ⟨(c7_slot_sharing Pcex new_xuckoo_hash_table Reachable.init
      new_xuckoo_hash_table.table1 (List.mem_cons_self _ _) 0 (by decide)).1,
   (c7_slot_sharing Pcex new_xuckoo_hash_table Reachable.init
      new_xuckoo_hash_table.table1 (List.mem_cons_self _ _) 0 (by decide)).2.1⟩

/-- **C10** (confirmed).  In every reachable state, for each inner table and
each arena bucket `b`: exactly one in-range slot both references `b` and has
its index equal to the referenced bucket's id, and the teardown scan
(`free_scan`) frees arena bucket `b` exactly once. -/
theorem c10_teardown (P : XuckooParams) (t : XuckooHashTable)
    (hre : Reachable P t) :
    ∀ it ∈ [t.table1, t.table2], ∀ b, b < it.arena.length →
      (List.range it.size).countP
        (fun i => (it.bucketIdxAt i == b) && ((it.bucketAt i).id == i)) = 1 ∧
      (free_scan it).count b = 1 := by
  have hww := reachable_WF P t hre
  intro it hit
  have hw : it.WF P.maxSize := by
    simp only [List.mem_cons, List.not_mem_nil, or_false] at hit
    rcases hit with h | h
    · rw [h]; exact hww.1
    · rw [h]; exact hww.2
  intro b hb
  obtain ⟨i0, hi0, hidx0⟩ := hw.surj b hb
  have hbeq : it.bucketAt i0 = it.arena.getD b default := by
    unfold InnerTable.bucketAt; rw [hidx0]
  have hid0 := hw.id_eq i0 hi0
  rw [hbeq] at hid0
  have hdle0 := hw.depth_le i0 hi0
  rw [hbeq] at hdle0
  have hrlt : (it.arena.getD b default).id <
      2 ^ (it.arena.getD b default).depth := by
    rw [hid0]; exact Nat.mod_lt _ (Nat.two_pow_pos _)
  have hrsize : (it.arena.getD b default).id < it.size := by
    have h2 : (2 : Nat) ^ (it.arena.getD b default).depth ≤ 2 ^ it.depth :=
      Nat.pow_le_pow_right (by omega) hdle0
    rw [hw.size_eq]; omega
  have hmem : ∀ i, i < it.size →
      ((it.bucketIdxAt i = b ∧ (it.bucketAt i).id = i) ↔
        i = (it.arena.getD b default).id) := by
    intro i hi
    constructor
    · rintro ⟨hib, hii⟩
      have hbi : it.bucketAt i = it.arena.getD b default := by
        unfold InnerTable.bucketAt; rw [hib]
      rw [hbi] at hii
      exact hii.symm
    · intro hieq
      subst hieq
      have halias : it.bucketIdxAt i0 =
          it.bucketIdxAt (it.arena.getD b default).id := by
        refine (hw.alias_iff i0 (it.arena.getD b default).id hi0 hrsize).mpr ?_
        rw [hbeq]
        rw [Nat.mod_eq_of_lt hrlt]
        exact hid0.symm
      have hib : it.bucketIdxAt (it.arena.getD b default).id = b := by
        rw [← halias]; exact hidx0
      refine ⟨hib, ?_⟩
      have hbi : it.bucketAt (it.arena.getD b default).id =
          it.arena.getD b default := by
        unfold InnerTable.bucketAt; rw [hib]
      rw [hbi]
  constructor
  · have hc : (List.range it.size).countP
        (fun i => (it.bucketIdxAt i == b) && ((it.bucketAt i).id == i)) =
        (List.range it.size).countP
          (fun i => i == (it.arena.getD b default).id) := by
      apply List.countP_congr
      intro a hamem
      have halt := List.mem_range.mp hamem
      have hiff := hmem a halt
      simp only [Bool.and_eq_true, beq_iff_eq]
      exact hiff
    rw [hc]
    exact countP_range_eq_one _ _ hrsize
  · show List.countP (fun x => x == b) (free_scan it) = 1
    unfold free_scan
    rw [List.countP_map, List.countP_filter, xcountP_reverse]
    have hc : (List.range it.size).countP
        (fun a => ((fun x => x == b) ∘ fun i => it.bucketIdxAt i) a &&
          decide ((it.bucketAt a).id = a)) =
        (List.range it.size).countP
          (fun i => i == (it.arena.getD b default).id) := by
      apply List.countP_congr
      intro a hamem
      have halt := List.mem_range.mp hamem
      have hiff := hmem a halt
      simp only [Function.comp, Bool.and_eq_true, beq_iff_eq,
        decide_eq_true_eq]
      exact hiff
    rw [hc]
    exact countP_range_eq_one _ _ hrsize

/-- Witness for C10: the teardown count evaluated at arena bucket 0 of the
fresh table's first inner table. -/
theorem c10_teardown_witness :
    (List.range new_xuckoo_hash_table.table1.size).countP
      (fun i => (new_xuckoo_hash_table.table1.bucketIdxAt i == 0) &&
        ((new_xuckoo_hash_table.table1.bucketAt i).id == i)) = 1 ∧
    (free_scan new_xuckoo_hash_table.table1).count 0 = 1 :=
  c10_teardown Pcex new_xuckoo_hash_table Reachable.init
    new_xuckoo_hash_table.table1 (List.mem_cons_self _ _) 0 (by decide)

/-- `modifyBucket` does not change the arena length. -/
theorem modifyBucket_arena_len (t : InnerTable) (bidx : Nat)
    (f : Bucket → Bucket) :
    (t.modifyBucket bidx f).arena.length = t.arena.length := by
  simp [InnerTable.modifyBucket]

/-- A well-formed inner table owns at most `maxSize + 1` buckets: the slot
map is onto the arena, so the arena is no longer than the slot array, whose
size is `1` at depth `0` and below `maxSize` otherwise. -/
theorem WF_arena_le (maxSize : Nat) (t : InnerTable) (h : t.WF maxSize) :
    t.arena.length ≤ maxSize + 1 := by
  have hle : t.arena.length ≤ t.size := by
    have hsurj : Set.SurjOn t.bucketIdxAt
        ↑(Finset.range t.size) ↑(Finset.range t.arena.length) := by
      intro b hb
      simp only [Finset.coe_range, Set.mem_Iio] at hb
      obtain ⟨i, hi, hidx⟩ := h.surj b hb
      exact ⟨i, by simp [Finset.coe_range, Set.mem_Iio, hi], hidx⟩
    have hcard := Finset.card_le_card_of_surjOn t.bucketIdxAt hsurj
    simpa using hcard
  have hsz : t.size ≤ maxSize + 1 := by
    rcases h.size_lt with h0 | hlt
    · have h1 : t.size = 1 := by rw [h.size_eq, h0, pow_zero]
      omega
    · omega
  omega

/-- `split_inner` adds exactly one bucket to the arena. -/
theorem split_inner_arena_len (P : XuckooParams) (inner1 : InnerTable)
    (address table_no : Nat) :
    (split_inner P inner1 address table_no).arena.length =
      inner1.arena.length + 1 := by
  simp [split_inner, reinsert_key, InnerTable.modifyBucket, new_bucket]

/-- A successful `split_bucket` grows the combined arena length by exactly
one. -/
theorem split_bucket_arena (P : XuckooParams) (t : XuckooHashTable)
    (address table_no : Nat) (t' : XuckooHashTable)
    (h : split_bucket P t address table_no = some t') :
    t'.table1.arena.length + t'.table2.arena.length =
      t.table1.arena.length + t.table2.arena.length + 1 := by
  obtain ⟨inner1, hg, ht'⟩ := split_bucket_some P t address table_no t' h
  have harena : inner1.arena =
      (if table_no = 1 then t.table1 else t.table2).arena := by
    by_cases hgd : ((if table_no = 1 then t.table1 else t.table2).bucketAt
        address).depth = (if table_no = 1 then t.table1 else t.table2).depth
    · rw [if_pos hgd] at hg
      obtain ⟨he, -⟩ := double_table_eq _ _ _ hg
      rw [he]
    · rw [if_neg hgd] at hg
      simp only [Option.some.injEq] at hg
      rw [← hg]
  subst ht'
  unfold split_install
  by_cases hno : table_no = 1
  · rw [if_pos hno]
    show (split_inner P inner1 address table_no).arena.length +
        t.table2.arena.length = _
    rw [split_inner_arena_len, harena, if_pos hno]
    omega
  · rw [if_neg hno]
    show t.table1.arena.length +
        (split_inner P inner1 address table_no).arena.length = _
    rw [split_inner_arena_len, harena, if_neg hno]
    omega

/-- When the cycle/overflow guard fires, a displacement step terminates
(possibly fatally) provided every state with one more arena bucket admits a
terminating restart. -/
theorem xuck_step_guard_fuel (P : XuckooParams) (S : Nat)
    (hcont : ∀ (t2 : XuckooHashTable) (key2 : Int),
      t2.table1.WF P.maxSize → t2.table2.WF P.maxSize →
      t2.table1.arena.length + t2.table2.arena.length = S + 1 →
      ∃ fuel, xuck_run P fuel (.ins t2 key2) ≠ XRes.nofuel)
    (t : XuckooHashTable) (key : Int) (orig_pos : Nat) (orig_key : Int)
    (loop orig_table : Nat)
    (hw1 : t.table1.WF P.maxSize) (hw2 : t.table2.WF P.maxSize)
    (hsum : t.table1.arena.length + t.table2.arena.length = S)
    (hg : xuck_guard P t key orig_pos orig_key loop) :
    ∃ fuel, xuck_run P fuel (.step t key orig_pos orig_key loop orig_table) ≠
      XRes.nofuel := by
  cases hsp : split_bucket P t (xuck_step_address P t key loop)
      (xuck_step_table_no loop) with
  | none =>
    refine ⟨0 + 1, ?_⟩
    simp only [xuck_run]
    rw [if_pos hg]
    simp only [hsp]
    simp
  | some t2 =>
    have hwin : (xuck_step_inner t loop).WF P.maxSize := by
      unfold xuck_step_inner
      split
      · exact hw2
      · exact hw1
    have ha' : xuck_step_address P t key loop <
        (if xuck_step_table_no loop = 1 then t.table1 else t.table2).size := by
      have h0 := xuck_step_address_lt P t key loop hwin
      rw [xuck_step_inner_eq] at h0
      exact h0
    obtain ⟨hs1, hs2⟩ := WF_split_bucket P t t2
      (xuck_step_address P t key loop) (xuck_step_table_no loop)
      hw1 hw2 ha' hsp
    have hsum2 : t2.table1.arena.length + t2.table2.arena.length = S + 1 := by
      have harr := split_bucket_arena P t _ _ t2 hsp
      omega
    obtain ⟨fuel2, hf2⟩ := hcont t2 key hs1 hs2 hsum2
    refine ⟨fuel2 + 1, ?_⟩
    simp only [xuck_run]
    rw [if_pos hg]
    simp only [hsp]
    exact hf2

/-- A displacement chain terminates: within at most
`size1 + size2 + 1 - loop` steps clause (b) of the guard must fire, and every
swap step preserves both arena lengths and both sizes. -/
theorem xuck_step_exists_fuel (P : XuckooParams) (S : Nat)
    (hcont : ∀ (t2 : XuckooHashTable) (key2 : Int),
      t2.table1.WF P.maxSize → t2.table2.WF P.maxSize →
      t2.table1.arena.length + t2.table2.arena.length = S + 1 →
      ∃ fuel, xuck_run P fuel (.ins t2 key2) ≠ XRes.nofuel) :
    ∀ (m : Nat) (t : XuckooHashTable) (key : Int) (orig_pos : Nat)
      (orig_key : Int) (loop orig_table : Nat),
      t.table1.WF P.maxSize → t.table2.WF P.maxSize →
      t.table1.arena.length + t.table2.arena.length = S →
      t.table1.size + t.table2.size + 1 ≤ loop + m →
      ∃ fuel,
        xuck_run P fuel (.step t key orig_pos orig_key loop orig_table) ≠
          XRes.nofuel := by
  intro m
  induction m with
  | zero =>
    intro t key orig_pos orig_key loop orig_table hw1 hw2 hsum hm
    have hg : xuck_guard P t key orig_pos orig_key loop := Or.inr (by omega)
    exact xuck_step_guard_fuel P S hcont t key orig_pos orig_key loop
      orig_table hw1 hw2 hsum hg
  | succ m ihm =>
    intro t key orig_pos orig_key loop orig_table hw1 hw2 hsum hm
    by_cases hg : xuck_guard P t key orig_pos orig_key loop
    · exact xuck_step_guard_fuel P S hcont t key orig_pos orig_key loop
        orig_table hw1 hw2 hsum hg
    · by_cases hf : ((xuck_step_inner t loop).bucketAt
          (xuck_step_address P t key loop)).full
      · by_cases h2 : xuck_step_table_no loop = 2
        · have hw2' : ((xuck_step_inner t loop).modifyBucket
              ((xuck_step_inner t loop).bucketIdxAt
                (xuck_step_address P t key loop))
              (fun b => { b with key := key })).WF P.maxSize :=
            WF_modifyBucket P.maxSize (xuck_step_inner t loop)
              ((xuck_step_inner t loop).bucketIdxAt
                (xuck_step_address P t key loop))
              (fun b => { b with key := key }) (fun b => ⟨rfl, rfl⟩)
              (by simp only [xuck_step_inner, h2, ite_true]; exact hw2)
          have hlen2 : ((xuck_step_inner t loop).modifyBucket
              ((xuck_step_inner t loop).bucketIdxAt
                (xuck_step_address P t key loop))
              (fun b => { b with key := key })).arena.length =
              t.table2.arena.length := by
            rw [modifyBucket_arena_len]
            simp only [xuck_step_inner, h2, ite_true]
          have hsz2 : ((xuck_step_inner t loop).modifyBucket
              ((xuck_step_inner t loop).bucketIdxAt
                (xuck_step_address P t key loop))
              (fun b => { b with key := key })).size = t.table2.size := by
            show (xuck_step_inner t loop).size = t.table2.size
            simp only [xuck_step_inner, h2, ite_true]
          obtain ⟨fuel0, hf0⟩ := ihm
            { t with table2 := ((xuck_step_inner t loop).modifyBucket
                ((xuck_step_inner t loop).bucketIdxAt
                  (xuck_step_address P t key loop))
                (fun b => { b with key := key })) }
            ((xuck_step_inner t loop).bucketAt
              (xuck_step_address P t key loop)).key
            orig_pos orig_key (loop + 1) orig_table hw1 hw2'
            (by show t.table1.arena.length + _ = S; rw [hlen2]; exact hsum)
            (by show t.table1.size + _ + 1 ≤ _; rw [hsz2]; omega)
          refine ⟨fuel0 + 1, ?_⟩
          simp only [xuck_run]
          rw [if_neg hg, if_pos hf, if_pos h2]
          exact hf0
        · have hw1' : ((xuck_step_inner t loop).modifyBucket
              ((xuck_step_inner t loop).bucketIdxAt
                (xuck_step_address P t key loop))
              (fun b => { b with key := key })).WF P.maxSize :=
            WF_modifyBucket P.maxSize (xuck_step_inner t loop)
              ((xuck_step_inner t loop).bucketIdxAt
                (xuck_step_address P t key loop))
              (fun b => { b with key := key }) (fun b => ⟨rfl, rfl⟩)
              (by simp only [xuck_step_inner, h2, ite_false]; exact hw1)
          have hlen1 : ((xuck_step_inner t loop).modifyBucket
              ((xuck_step_inner t loop).bucketIdxAt
                (xuck_step_address P t key loop))
              (fun b => { b with key := key })).arena.length =
              t.table1.arena.length := by
            rw [modifyBucket_arena_len]
            simp only [xuck_step_inner, h2, ite_false]
          have hsz1 : ((xuck_step_inner t loop).modifyBucket
              ((xuck_step_inner t loop).bucketIdxAt
                (xuck_step_address P t key loop))
              (fun b => { b with key := key })).size = t.table1.size := by
            show (xuck_step_inner t loop).size = t.table1.size
            simp only [xuck_step_inner, h2, ite_false]
          obtain ⟨fuel0, hf0⟩ := ihm
            { t with table1 := ((xuck_step_inner t loop).modifyBucket
                ((xuck_step_inner t loop).bucketIdxAt
                  (xuck_step_address P t key loop))
                (fun b => { b with key := key })) }
            ((xuck_step_inner t loop).bucketAt
              (xuck_step_address P t key loop)).key
            orig_pos orig_key (loop + 1) orig_table hw1' hw2
            (by show _ + t.table2.arena.length = S; rw [hlen1]; exact hsum)
            (by show _ + t.table2.size + 1 ≤ _; rw [hsz1]; omega)
          refine ⟨fuel0 + 1, ?_⟩
          simp only [xuck_run]
          rw [if_neg hg, if_pos hf, if_neg h2]
          exact hf0
      · refine ⟨0 + 1, ?_⟩
        simp only [xuck_run]
        rw [if_neg hg, if_neg hf]
        simp

/-- A top-level insert terminates provided every state with one more arena
bucket admits a terminating insert (the guard's split-and-restart is the only
way the chain leaves the current arena sizes). -/
theorem xuck_ins_step_glue (P : XuckooParams) (t : XuckooHashTable) (key : Int)
    (hw1 : t.table1.WF P.maxSize) (hw2 : t.table2.WF P.maxSize)
    (hcont : ∀ (t2 : XuckooHashTable) (key2 : Int),
      t2.table1.WF P.maxSize → t2.table2.WF P.maxSize →
      t2.table1.arena.length + t2.table2.arena.length =
        t.table1.arena.length + t.table2.arena.length + 1 →
      ∃ fuel, xuck_run P fuel (.ins t2 key2) ≠ XRes.nofuel) :
    ∃ fuel, xuck_run P fuel (.ins t key) ≠ XRes.nofuel := by
  by_cases hl : xuckoo_hash_table_lookup P t key
  · refine ⟨0 + 1, ?_⟩
    simp only [xuck_run]
    rw [if_pos hl]
    simp
  · by_cases hs : xuck_start_table_no t = 1
    · obtain ⟨fuel0, hf0⟩ := xuck_step_exists_fuel P
        (t.table1.arena.length + t.table2.arena.length) hcont
        (t.table1.size + t.table2.size + 1) t key
        (rightmostnbits t.table1.depth (P.h1 key)) key 0 1 hw1 hw2 rfl
        (by omega)
      refine ⟨fuel0 + 1, ?_⟩
      simp only [xuck_run]
      rw [if_neg hl, if_pos hs]
      cases hr : xuck_run P fuel0
          (.step t key (rightmostnbits t.table1.depth (P.h1 key)) key 0 1) with
      | done b2 t2 => simp
      | fatal => simp
      | nofuel => exact absurd hr hf0
    · obtain ⟨fuel0, hf0⟩ := xuck_step_exists_fuel P
        (t.table1.arena.length + t.table2.arena.length) hcont
        (t.table1.size + t.table2.size + 1) t key
        (rightmostnbits t.table2.depth (P.h2 key)) key 1 2 hw1 hw2 rfl
        (by omega)
      refine ⟨fuel0 + 1, ?_⟩
      simp only [xuck_run]
      rw [if_neg hl, if_neg hs]
      cases hr : xuck_run P fuel0
          (.step t key (rightmostnbits t.table2.depth (P.h2 key)) key 1 2) with
      | done b2 t2 => simp
      | fatal => simp
      | nofuel => exact absurd hr hf0

/-- A top-level insert from a well-formed state terminates: induction on the
remaining split budget (the combined arena length is bounded by
`2 * maxSize + 2` in every well-formed state and grows by one per split). -/
theorem xuck_ins_exists_fuel (P : XuckooParams) :
    ∀ (k : Nat) (t : XuckooHashTable) (key : Int),
      t.table1.WF P.maxSize → t.table2.WF P.maxSize →
      2 * P.maxSize + 2 ≤ t.table1.arena.length + t.table2.arena.length + k →
      ∃ fuel, xuck_run P fuel (.ins t key) ≠ XRes.nofuel := by
  intro k
  induction k with
  | zero =>
    intro t key hw1 hw2 hk
    refine xuck_ins_step_glue P t key hw1 hw2 ?_
    intro t2 key2 hw1' hw2' hsum2
    exfalso
    have hb1 := WF_arena_le P.maxSize t2.table1 hw1'
    have hb2 := WF_arena_le P.maxSize t2.table2 hw2'
    omega
  | succ k ihk =>
    intro t key hw1 hw2 hk
    refine xuck_ins_step_glue P t key hw1 hw2 ?_
    intro t2 key2 hw1' hw2' hsum2
    exact ihk t2 key2 hw1' hw2' (by omega)

/-- **C9** (confirmed).  From every reachable state and for every key there
is enough fuel for `insert` to finish without exhausting it: the displacement
recursion, including its split-and-restart fallback, cannot recurse
unboundedly (each restart is preceded by a split that grows a bounded arena,
and each chain fires the guard within `size1 + size2 + 1` steps). -/
theorem c9_termination (P : XuckooParams) (t : XuckooHashTable)
    (hre : Reachable P t) (key : Int) :
    ∃ fuel, xuckoo_hash_table_insert P fuel t key ≠ XRes.nofuel := by
  obtain ⟨hw1, hw2⟩ := reachable_WF P t hre
  exact xuck_ins_exists_fuel P (2 * P.maxSize + 2) t key hw1 hw2 (by omega)

/-- Witness for C9: termination of an insert into the fresh table. -/
theorem c9_termination_witness :
    ∃ fuel, xuckoo_hash_table_insert Pcex fuel new_xuckoo_hash_table 1 ≠
      XRes.nofuel :=
  c9_termination Pcex new_xuckoo_hash_table Reachable.init 1
